import Mathlib

/-!
Verification development for the archive-extraction utilities of
`aws_lambda_builders/workflows/dotnet_clipackage/utils.py` (class `OSUtils`).

The Python module is embedded shallowly:

* Filesystem paths are modeled as lists of name components (`Path`), all
  relative to a common implicit root.  Absolute member names and drive letters
  are not modeled; every path in play is a relative component list.
* The filesystem is a finite association list from paths to objects (`FS`):
  regular files carry their content and POSIX mode, directories carry a mode,
  and symbolic links carry their (uninterpreted) target string.  Symlink
  objects deliberately carry no mode of their own: POSIX symlink permissions
  are meaningless and `os.chmod` follows the link.
* Stateful Python code becomes explicit state passing: every operation returns
  a `Res α` holding the filesystem after the operation together with either a
  returned value or the raised exception; an exception propagates with the
  state at the point it was raised (Python performs no rollback).
* The `zipfile.ZipFile(path)` parse is abstracted: `unzip` receives
  `Option (List ZipInfo)` where `none` models a `zipfile.BadZipFile` parse
  failure of the archive bytes and `some entries` the parsed central directory
  in stored order.
* Byte strings are modeled as `String`; the UTF-8 decode of a symlink entry's
  content is the identity in this model, and `zip_ref.read(name)` is modeled
  as returning the entry's own content (member names assumed unique).
* Symlink resolution (`os.path.exists`, `os.path.isdir`, `os.chmod`) follows a
  chain of links at the queried path itself; re-resolution of intermediate
  components of a path is not modeled (the map is flat).
-/

namespace AwsLB

/-- Filesystem paths as component lists (`os.path` strings split on the
separator). -/
abbrev Path := List String

/-- A filesystem object: regular file, directory, or symbolic link. -/
inductive FSObj where
  | file (content : String) (mode : Nat)
  | dir (mode : Nat)
  | symlink (target : String)
deriving DecidableEq

/-- The filesystem: a finite map from paths to objects, as an association
list. -/
abbrev FS := List (Path × FSObj)

/-- Python exceptions raised by the embedded code. -/
inductive PyErr where
  /-- `zipfile.BadZipFile`: the archive could not be parsed. -/
  | badZipFile
  /-- any `OSError` raised by a filesystem primitive. -/
  | fsError
  /-- `UnboundLocalError`: a local variable read before assignment. -/
  | unboundLocal
deriving DecidableEq

/-- Result of running an operation: the filesystem afterwards plus either the
returned value or the propagated exception. -/
inductive Res (α : Type) where
  | ok (fs : FS) (val : α)
  | err (fs : FS) (e : PyErr)
deriving DecidableEq

/-- The filesystem carried by a result, whether the operation succeeded or
raised. -/
def Res.fs {α : Type} : Res α → FS
  | .ok fs _ => fs
  | .err fs _ => fs

/-- Did the operation return normally? -/
def Res.isOk {α : Type} : Res α → Bool
  | .ok _ _ => true
  | .err _ _ => false

/-- Look up the object stored at a path. -/
def fsLookup : FS → Path → Option FSObj
  | [], _ => none
  | (q, o) :: rest, p => if q = p then some o else fsLookup rest p

/-- Erase every binding of a path. -/
def fsRemove : FS → Path → FS
  | [], _ => []
  | (q, o) :: rest, p => if q = p then fsRemove rest p else (q, o) :: fsRemove rest p

/-- Store an object at a path, replacing any previous binding. -/
def fsSet (fs : FS) (p : Path) (o : FSObj) : FS := (p, o) :: fsRemove fs p

/-- `os.path.normpath` on an already-split relative path: drop empty and `.`
components and resolve `..` against the preceding component; a leading run of
`..` is kept, exactly as in Python. -/
def normpathAux : List String → List String → List String
  | acc, [] => acc.reverse
  | acc, c :: rest =>
    if c = "" ∨ c = "." then normpathAux acc rest
    else if c = ".." then
      match acc with
      | [] => normpathAux [".."] rest
      | a :: as_ =>
        if a = ".." then normpathAux (".." :: a :: as_) rest else normpathAux as_ rest
    else normpathAux (c :: acc) rest

/-- `os.path.normpath` (on split paths). -/
def normpath (p : Path) : Path := normpathAux [] p

/-- Split a raw string on `/` (the semantics of `str.split("/")`), written by
structural recursion on the characters so that it evaluates by kernel
reduction. -/
def splitOnSlashAux : List Char → List Char → List String
  | cur, [] => [String.mk cur.reverse]
  | cur, c :: rest =>
    if c = '/' then String.mk cur.reverse :: splitOnSlashAux [] rest
    else splitOnSlashAux (c :: cur) rest

/-- Split a symlink target string into path components. -/
def splitOnSlash (t : String) : List String := splitOnSlashAux [] t.data

/-- Follow a chain of symbolic links at a path.  A relative link target is
interpreted against the link's directory.  The fuel bounds chain length, so a
link cycle resolves to `none`, like `ELOOP`. -/
def resolveLink (fs : FS) : Nat → Path → Option Path
  | 0, _ => none
  | fuel + 1, p =>
    match fsLookup fs p with
    | none => none
    | some (.symlink t) => resolveLink fs fuel (normpath (p.dropLast ++ splitOnSlash t))
    | some _ => some p

/-- `os.path.lexists`: something is at the path, symlinks not followed. -/
def lexists (fs : FS) (p : Path) : Bool := (fsLookup fs p).isSome

/-- `os.path.exists`: follows symlinks; `False` on a dangling link. -/
def path_exists (fs : FS) (p : Path) : Bool := (resolveLink fs (fs.length + 1) p).isSome

/-- `os.path.islink`. -/
def islink (fs : FS) (p : Path) : Bool :=
  match fsLookup fs p with
  | some (.symlink _) => true
  | _ => false

/-- `os.path.isdir`: follows symlinks. -/
def isdir (fs : FS) (p : Path) : Bool :=
  match resolveLink fs (fs.length + 1) p with
  | some q =>
    match fsLookup fs q with
    | some (.dir _) => true
    | _ => false
  | none => false

/-- Does the path itself hold a directory object (no symlink following)? -/
def lookupIsDir (fs : FS) (p : Path) : Bool :=
  match fsLookup fs p with
  | some (.dir _) => true
  | _ => false

/-- `os.remove`: unlink a file or a symlink; raises on a missing path and on a
directory (`IsADirectoryError`). -/
def os_remove (fs : FS) (p : Path) : Res Unit :=
  match fsLookup fs p with
  | none => .err fs .fsError
  | some (.dir _) => .err fs .fsError
  | some _ => .ok (fsRemove fs p) ()

/-- `os.chmod` (follows symlinks): set the mode of the resolved object;
`FileNotFoundError` when nothing resolves. -/
def os_chmod (fs : FS) (p : Path) (mode : Nat) : Res Unit :=
  match resolveLink fs (fs.length + 1) p with
  | none => .err fs .fsError
  | some q =>
    match fsLookup fs q with
    | some (.file c _) => .ok (fsSet fs q (.file c mode)) ()
    | some (.dir _) => .ok (fsSet fs q (.dir mode)) ()
    | _ => .err fs .fsError

/-- `os.symlink(source, link_name)`: `FileExistsError` when the link path is
occupied.  The call sites have already ensured the leading directories exist;
creation inside a missing directory is not modeled. -/
def os_symlink (fs : FS) (source : String) (link_name : Path) : Res Unit :=
  if lexists fs link_name then .err fs .fsError
  else .ok (fsSet fs link_name (.symlink source)) ()

/-- `os.mkdir` with the process default creation mode; `FileExistsError` when
the path is occupied (also by a dangling symlink). -/
def os_mkdir (fs : FS) (dmode : Nat) (p : Path) : Res Unit :=
  if lexists fs p then .err fs .fsError
  else .ok (fsSet fs p (.dir dmode)) ()

/-- The recursive parent-creation pass of `os.makedirs`: walk the components,
tolerating prefixes that already resolve to directories and creating missing
ones; anything else in the way raises.  `acc` is the path built so far. -/
def ensureParents (fs : FS) (dmode : Nat) (acc : Path) : List String → Res Unit
  | [] => .ok fs ()
  | c :: rest =>
    if path_exists fs (acc ++ [c]) then
      if isdir fs (acc ++ [c]) then ensureParents fs dmode (acc ++ [c]) rest
      else .err fs .fsError
    else
      match fsLookup fs (acc ++ [c]) with
      | none => ensureParents (fsSet fs (acc ++ [c]) (.dir dmode)) dmode (acc ++ [c]) rest
      | some _ => .err fs .fsError

/-- `os.makedirs p`: ensure the parents exist, then `mkdir p`; raises when `p`
itself is already occupied (as `os.mkdir` does) and on an empty path (Python
raises `FileNotFoundError` on `makedirs("")`). -/
def makedirs (fs : FS) (dmode : Nat) (p : Path) : Res Unit :=
  if p = [] then .err fs .fsError
  else
    match ensureParents fs dmode [] p.dropLast with
    | .err fs1 e => .err fs1 e
    | .ok fs1 _ => os_mkdir fs1 dmode p

/-- `ZipFile._extract_member`'s arcname sanitization: CPython drops the
components in `invalid_path_parts`, that is empty, `.` and `..` parts. -/
def sanitizeArcname (comps : List String) : List String :=
  comps.filter (fun x => x != "" && x != "." && x != "..")

/-- `open(targetpath, "wb")` plus the write: create the file with the default
creation mode, or truncate an existing regular file keeping its mode.  Writing
onto a directory raises; writing through a symlink is not modeled (no theorem
exercises it) and raises. -/
def write_file (fs : FS) (fmode : Nat) (p : Path) (content : String) : Res Unit :=
  match fsLookup fs p with
  | none => .ok (fsSet fs p (.file content fmode)) ()
  | some (.file _ m) => .ok (fsSet fs p (.file content m)) ()
  | some (.dir _) => .err fs .fsError
  | some (.symlink _) => .err fs .fsError

/-- One member of the parsed archive (`zipfile.ZipInfo`). -/
structure ZipInfo where
  /-- the member name, already split on `/`. -/
  filename : Path
  /-- `ZipInfo.is_dir()`: the raw name ended in a separator. -/
  isDirEntry : Bool
  /-- the 32-bit external-attributes field of the central directory entry. -/
  external_attr : Nat
  /-- the member's content bytes; for a symlink these are the target string. -/
  content : String
deriving DecidableEq

/-- Default creation modes of the process (`0o777`/`0o666` masked by the
umask). -/
structure Umask where
  dirMode : Nat
  fileMode : Nat
deriving DecidableEq

/-- `zip_ref.extract(file_info, output_dir)`, that is
`ZipFile._extract_member`: sanitize the member name, join with the output
directory and normalize, create missing upper directories, then materialize a
directory or write the member bytes; returns the target path. -/
def zip_extract (fs : FS) (u : Umask) (file_info : ZipInfo) (output_dir : Path) : Res Path :=
  let targetpath := normpath (output_dir ++ sanitizeArcname file_info.filename)
  let upperdirs := targetpath.dropLast
  match (if upperdirs ≠ [] ∧ path_exists fs upperdirs = false
         then makedirs fs u.dirMode upperdirs else .ok fs ()) with
  | .err fs1 e => .err fs1 e
  | .ok fs1 _ =>
    if file_info.isDirEntry then
      if isdir fs1 targetpath then .ok fs1 targetpath
      else
        match os_mkdir fs1 u.dirMode targetpath with
        | .err fs2 e => .err fs2 e
        | .ok fs2 _ => .ok fs2 targetpath
    else
      match write_file fs1 u.fileMode targetpath file_info.content with
      | .err fs2 e => .err fs2 e
      | .ok fs2 _ => .ok fs2 targetpath

namespace OSUtils

/-- `OSUtils._is_symlink`: test the top nibble of the 32-bit external
attributes (`external_attr >> 28 == 0xA`). -/
def _is_symlink (file_info : ZipInfo) : Bool :=
  file_info.external_attr >>> 28 == 0xA

/-- `OSUtils._extract`: regular members go through `zip_ref.extract`; symlink
members are re-created by hand: read the target from the member content, join
and normalize the link path, create missing leading directories, remove any
object already at the link path, and create the link. -/
def _extract (fs : FS) (u : Umask) (file_info : ZipInfo) (output_dir : Path) : Res Path :=
  if _is_symlink file_info = false then zip_extract fs u file_info output_dir
  else
    let source := file_info.content
    let link_name := normpath (output_dir ++ file_info.filename)
    let leading_dirs := link_name.dropLast
    match (if path_exists fs leading_dirs = false
           then makedirs fs u.dirMode leading_dirs else .ok fs ()) with
    | .err fs1 e => .err fs1 e
    | .ok fs1 _ =>
      match (if lexists fs1 link_name then os_remove fs1 link_name else .ok fs1 ()) with
      | .err fs2 e => .err fs2 e
      | .ok fs2 _ =>
        match os_symlink fs2 source link_name with
        | .err fs3 e => .err fs3 e
        | .ok fs3 _ => .ok fs3 link_name

/-- `OSUtils._override_permissions`: `if permission: os.chmod(path,
permission)` — Python truthiness, so both `None` and `0` are skipped. -/
def _override_permissions (fs : FS) (path : Path) (permission : Option Nat) : Res Unit :=
  match permission with
  | some m => if m ≠ 0 then os_chmod fs path m else .ok fs ()
  | none => .ok fs ()

/-- `OSUtils._set_permissions`: the upper 16 bits of `external_attr` are the
stored Unix mode; zero means "no permission information", which is logged and
skipped, not an error. -/
def _set_permissions (fs : FS) (zip_file_info : ZipInfo) (extracted_path : Path) : Res Unit :=
  if zip_file_info.external_attr >>> 16 = 0 then .ok fs ()
  else os_chmod fs extracted_path (zip_file_info.external_attr >>> 16)

/-- The `for file_info in zip_ref.infolist():` loop body of `OSUtils.unzip`,
threading the mutable local `extracted_path` (`none` while still unassigned). -/
def unzipLoop (u : Umask) (output_dir : Path) (permission : Option Nat) :
    FS → List ZipInfo → Option Path → Res (Option Path)
  | fs, [], extracted_path => .ok fs extracted_path
  | fs, file_info :: rest, _ =>
    match _extract fs u file_info output_dir with
    | .err fs1 e => .err fs1 e
    | .ok fs1 extracted_path =>
      if islink fs1 extracted_path = false then
        match _set_permissions fs1 file_info extracted_path with
        | .err fs2 e => .err fs2 e
        | .ok fs2 _ =>
          match _override_permissions fs2 extracted_path permission with
          | .err fs3 e => .err fs3 e
          | .ok fs3 _ => unzipLoop u output_dir permission fs3 rest (some extracted_path)
      else unzipLoop u output_dir permission fs1 rest (some extracted_path)

/-- `OSUtils.unzip`: iterate over the archive members, then (outside the
`with` block) re-read the loop variable `extracted_path` — an
`UnboundLocalError` when the archive had no member — possibly override the
output directory's permissions, and finally delete the archive file. -/
def unzip (fs : FS) (u : Umask) (archive : Option (List ZipInfo))
    (zip_file_path output_dir : Path) (permission : Option Nat) : Res Unit :=
  match archive with
  | none => .err fs .badZipFile
  | some entries =>
    match unzipLoop u output_dir permission fs entries none with
    | .err fs1 e => .err fs1 e
    | .ok fs1 extracted_path =>
      match extracted_path with
      | none => .err fs1 .unboundLocal
      | some p =>
        match (if islink fs1 p = false
               then _override_permissions fs1 output_dir permission else .ok fs1 ()) with
        | .err fs2 e => .err fs2 e
        | .ok fs2 _ => os_remove fs2 zip_file_path

/-- The path at which `_extract` materializes an entry; both branches of
`_extract` return exactly this path. -/
def entryPath (output_dir : Path) (file_info : ZipInfo) : Path :=
  if _is_symlink file_info then normpath (output_dir ++ file_info.filename)
  else normpath (output_dir ++ sanitizeArcname file_info.filename)

end OSUtils

/-- Does the object behind this lookup result, when it is a regular file or a
directory, carry exactly the mode `p`? -/
def modeIsB : Option FSObj → Nat → Bool
  | some (.file _ m), p => m == p
  | some (.dir m), p => m == p
  | _, _ => true

/-! Concrete scenario data reused by the witnesses and counterexamples. -/

/-- A process umask giving directories `0o777` and files `0o644`. -/
def exUmask : Umask := ⟨511, 420⟩

/-- An output directory of mode `0o700` next to the archive file. -/
def exFS : FS := [(["out"], .dir 448), (["a.zip"], .file "PK" 420)]

/-- A regular-file member with stored mode `0o644`. -/
def exFileEntry : ZipInfo := ⟨["f.txt"], false, 0o644 <<< 16, "hi"⟩

/-- A symlink member (`0xA1FF` upper bits) whose content is the target. -/
def exLinkEntry : ZipInfo := ⟨["l"], false, 0xA1FF <<< 16, "f.txt"⟩

/-- A member nested two directories deep. -/
def exDeepEntry : ZipInfo := ⟨["d", "e", "g.txt"], false, 0o600 <<< 16, "x"⟩

/-- Like `exFS` with a dangling symlink already occupying the link path. -/
def exFSDangling : FS :=
  [(["out"], .dir 448), (["out", "l"], .symlink "missing"), (["a.zip"], .file "PK" 420)]

/-- Like `exFS` with a stale directory already occupying the link path. -/
def exFSStaleDir : FS :=
  [(["out"], .dir 448), (["out", "l"], .dir 511), (["a.zip"], .file "PK" 420)]

/-- Like `exFS` with a stale regular file already occupying the link path. -/
def exFSStaleFile : FS :=
  [(["out"], .dir 448), (["out", "l"], .file "stale" 420), (["a.zip"], .file "PK" 420)]

/-- A symlink member nested one directory deep. -/
def exDeepLinkEntry : ZipInfo := ⟨["sub", "l2"], false, 0xA1FF <<< 16, "t"⟩

/-- The loop state after processing `[exFileEntry, exLinkEntry]` from `exFS`
with override `0o755`. -/
def exLoopFS : FS :=
  [(["out", "l"], .symlink "f.txt"), (["out", "f.txt"], .file "hi" 493),
   (["out"], .dir 448), (["a.zip"], .file "PK" 420)]

/-! Basic lemmas about the path map. -/

theorem fsLookup_fsRemove (fs : FS) (p q : Path) :
    fsLookup (fsRemove fs p) q = if q = p then none else fsLookup fs q := by
  induction fs with
  | nil => simp [fsRemove, fsLookup]
  | cons hd tl ih =>
    obtain ⟨a, o⟩ := hd
    by_cases hap : a = p <;> by_cases haq : a = q <;>
      simp_all [fsRemove, fsLookup]

theorem fsLookup_fsSet (fs : FS) (p q : Path) (o : FSObj) :
    fsLookup (fsSet fs p o) q = if p = q then some o else fsLookup fs q := by
  by_cases h : p = q
  · simp [fsSet, fsLookup, h]
  · simp [fsSet, fsLookup, h, fsLookup_fsRemove, Ne.symm h]

theorem fsLookup_fsSet_self (fs : FS) (p : Path) (o : FSObj) :
    fsLookup (fsSet fs p o) p = some o := by
  simp [fsLookup_fsSet]

theorem fsLookup_fsSet_ne (fs : FS) (p q : Path) (o : FSObj) (h : p ≠ q) :
    fsLookup (fsSet fs p o) q = fsLookup fs q := by
  simp [fsLookup_fsSet, h]

theorem resolveLink_of_file (fs : FS) (n : Nat) (p : Path) (c : String) (m : Nat)
    (h : fsLookup fs p = some (.file c m)) : resolveLink fs (n + 1) p = some p := by
  simp [resolveLink, h]

theorem resolveLink_of_dir (fs : FS) (n : Nat) (p : Path) (m : Nat)
    (h : fsLookup fs p = some (.dir m)) : resolveLink fs (n + 1) p = some p := by
  simp [resolveLink, h]

/-! Claim theorems. -/

/-- **C1.** Symlink classification is a pure function of the 32-bit
external-attributes value: writing the value as `hi * 2 ^ 28 + lo` with
`hi < 16` and `lo < 2 ^ 28` (every 32-bit unsigned integer decomposes uniquely
this way), `_is_symlink` returns `true` iff the file-type nibble `hi` (bits
28-31) equals `0xA = 10`, regardless of the other 28 bits and of every other
field of the entry; being a plain function of the entry, it has no side
effects. -/
theorem C1 (hi lo : Nat) (name : Path) (isd : Bool) (c : String)
    (_hhi : hi < 16) (hlo : lo < 2 ^ 28) :
    OSUtils._is_symlink ⟨name, isd, hi * 2 ^ 28 + lo, c⟩ = true ↔ hi = 10 := by
  have hdiv : (hi * 2 ^ 28 + lo) >>> 28 = hi := by
    rw [Nat.shiftRight_eq_div_pow, mul_comm hi (2 ^ 28), Nat.mul_add_div (by norm_num),
      Nat.div_eq_of_lt hlo, Nat.add_zero]
  simp only [OSUtils._is_symlink, beq_iff_eq]
  rw [hdiv]

/-- Witness for `C1` at the 32-bit value `0xA0000005` (and, via `hhi`/`hlo`,
the bounds hold at `hi = 10`, `lo = 5`). -/
theorem C1_witness :
    OSUtils._is_symlink ⟨["x"], false, 10 * 2 ^ 28 + 5, ""⟩ = true :=
  (C1 10 5 ["x"] false "" (by decide) (by decide)).mpr rfl

/-- **C3.** Permission restoration on a non-symlink extracted path: when the
upper 16 bits of `external_attr` are nonzero, `_set_permissions` applies
exactly that value as the path's Unix mode via `os.chmod` (third conjunct:
on a regular file the stored mode is replaced by that value); when they are
zero, the restoration is skipped without raising — only a diagnostic is
logged — and the filesystem is returned unchanged, so the path keeps its
default creation mode. -/
theorem C3 (fs : FS) (info : ZipInfo) (p : Path) :
    (info.external_attr >>> 16 = 0 → OSUtils._set_permissions fs info p = .ok fs ()) ∧
    (info.external_attr >>> 16 ≠ 0 →
      OSUtils._set_permissions fs info p = os_chmod fs p (info.external_attr >>> 16)) ∧
    (∀ c m0, info.external_attr >>> 16 ≠ 0 → fsLookup fs p = some (.file c m0) →
      OSUtils._set_permissions fs info p =
        .ok (fsSet fs p (.file c (info.external_attr >>> 16))) ()) := by
  refine ⟨fun h0 => by simp [OSUtils._set_permissions, h0], fun hne => by
    simp [OSUtils._set_permissions, hne], fun c m0 hne hf => ?_⟩
  have hres := resolveLink_of_file fs fs.length p c m0 hf
  simp [OSUtils._set_permissions, hne, os_chmod, hres, hf]

/-- Witness for `C3`: the nonzero branch applied to `exFileEntry` (stored mode
`0o644`) on a file of mode `0o600`, and the zero branch on an entry without
permission bits. -/
theorem C3_witness :
    OSUtils._set_permissions [(["out", "f.txt"], .file "hi" 384)] exFileEntry ["out", "f.txt"] =
      .ok (fsSet [(["out", "f.txt"], .file "hi" 384)] ["out", "f.txt"] (.file "hi" 420)) () ∧
    OSUtils._set_permissions exFS ⟨["w"], false, 0, "b"⟩ ["w"] = .ok exFS () := by
  constructor
  · exact (C3 [(["out", "f.txt"], .file "hi" 384)] exFileEntry ["out", "f.txt"]).2.2
      "hi" 384 (by decide) (by decide)
  · exact (C3 exFS ⟨["w"], false, 0, "b"⟩ ["w"]).1 rfl

/-- **C7.** A malformed archive — the `zipfile.ZipFile` constructor raises
`BadZipFile`, modeled as the `none` parse — makes `unzip` fail with the
archive-read error before extracting any entry: the returned filesystem is the
input unchanged, so the output directory is untouched and the archive file is
still in place. -/
theorem C7 (fs : FS) (u : Umask) (zp od : Path) (perm : Option Nat) :
    OSUtils.unzip fs u none zp od perm = .err fs .badZipFile := rfl

/-- **C8.** On a well-formed archive with zero entries the loop body never
runs, so the post-loop read of `extracted_path` raises the unbound-local
error; the filesystem is returned unchanged, so the archive file was not
deleted. -/
theorem C8 (fs : FS) (u : Umask) (zp od : Path) (perm : Option Nat) :
    OSUtils.unzip fs u (some []) zp od perm = .err fs .unboundLocal := rfl

/-- `_override_permissions` with an explicit `0` behaves as with `None`:
both fall to the skip branch of the truthiness test. -/
theorem override_some_zero (fs : FS) (p : Path) :
    OSUtils._override_permissions fs p (some 0) = .ok fs () := rfl

theorem override_none (fs : FS) (p : Path) :
    OSUtils._override_permissions fs p none = .ok fs () := rfl

/-- The loop treats permission `0` and `None` identically. -/
theorem unzipLoop_zero_none (u : Umask) (od : Path) (entries : List ZipInfo) :
    ∀ (fs : FS) (last : Option Path),
      OSUtils.unzipLoop u od (some 0) fs entries last =
        OSUtils.unzipLoop u od none fs entries last := by
  induction entries with
  | nil => intro fs last; rfl
  | cons info rest ih =>
    intro fs last
    simp only [OSUtils.unzipLoop]
    cases OSUtils._extract fs u info od with
    | err fs1 e => rfl
    | ok fs1 p =>
      by_cases hl : islink fs1 p = false
      · simp only [if_pos hl]
        cases OSUtils._set_permissions fs1 info p with
        | err fs2 e => rfl
        | ok fs2 v => exact ih fs2 (some p)
      · simp only [if_neg hl]
        exact ih fs1 (some p)

/-- **C9.** Passing the permission value `0` to `unzip` behaves exactly like
passing no permission at all: `_override_permissions` tests the value for
Python truthiness, so an override of octal `0` is silently skipped and the
whole run — every filesystem effect included — is identical to the `None`
run; in particular no chmod is performed on any path or on the output
directory. -/
theorem C9 (fs : FS) (u : Umask) (archive : Option (List ZipInfo)) (zp od : Path) :
    OSUtils.unzip fs u archive zp od (some 0) = OSUtils.unzip fs u archive zp od none := by
  cases archive with
  | none => rfl
  | some entries =>
    simp only [OSUtils.unzip, unzipLoop_zero_none]
    cases OSUtils.unzipLoop u od none fs entries none with
    | err fs1 e => rfl
    | ok fs1 lastp =>
      cases lastp with
      | none => rfl
      | some p =>
        by_cases hl : islink fs1 p = false
        · rfl
        · rfl

/-- Whatever `os.remove p` does — unlink or raise — the state at any other
path is untouched. -/
theorem os_remove_fs_lookup_ne (fs : FS) (p q : Path) (h : q ≠ p) :
    fsLookup (os_remove fs p).fs q = fsLookup fs q := by
  unfold os_remove
  cases hcase : fsLookup fs p with
  | none => rfl
  | some o =>
    cases o with
    | file c m => simp [Res.fs, fsLookup_fsRemove, h]
    | dir m => rfl
    | symlink t => simp [Res.fs, fsLookup_fsRemove, h]

/-- Unfolding of `unzip` past a successful loop: what remains is the
conditional override of the output directory and the archive removal. -/
theorem unzip_post (u : Umask) (fs fsL : FS) (entries : List ZipInfo) (zp od lastp : Path)
    (perm : Option Nat)
    (h : OSUtils.unzipLoop u od perm fs entries none = .ok fsL (some lastp)) :
    OSUtils.unzip fs u (some entries) zp od perm =
      (match (if islink fsL lastp = false
              then OSUtils._override_permissions fsL od perm else .ok fsL ()) with
       | .err fs2 e => .err fs2 e
       | .ok fs2 _ => os_remove fs2 zp) := by
  simp only [OSUtils.unzip, h]

/-- **C6.** After all entries are processed, the override is applied to the
output directory iff the last processed entry's materialized path is not a
symlink: when the final path is a symlink the function goes straight to
deleting the archive, so the root receives no override chmod (third conjunct:
its stored object is exactly what the loop left there). -/
theorem C6 (u : Umask) (fs fsL : FS) (entries : List ZipInfo) (zp od lastp : Path)
    (perm : Option Nat)
    (h : OSUtils.unzipLoop u od perm fs entries none = .ok fsL (some lastp)) :
    (islink fsL lastp = true →
      OSUtils.unzip fs u (some entries) zp od perm = os_remove fsL zp) ∧
    (islink fsL lastp = false →
      OSUtils.unzip fs u (some entries) zp od perm =
        (match OSUtils._override_permissions fsL od perm with
         | .err fs2 e => .err fs2 e
         | .ok fs2 _ => os_remove fs2 zp)) ∧
    (islink fsL lastp = true → zp ≠ od →
      fsLookup (OSUtils.unzip fs u (some entries) zp od perm).fs od = fsLookup fsL od) := by
  have hpost := unzip_post u fs fsL entries zp od lastp perm h
  refine ⟨fun hl => ?_, fun hl => ?_, fun hl hzp => ?_⟩
  · rw [hpost, if_neg (by simp [hl])]
  · rw [hpost, if_pos hl]
  · rw [hpost, if_neg (by simp [hl])]
    exact os_remove_fs_lookup_ne fsL zp od (Ne.symm hzp)
/-- A path holding no object resolves to nothing, at any fuel. -/
theorem resolveLink_none (fs : FS) (p : Path) (h : fsLookup fs p = none) :
    ∀ n, resolveLink fs n p = none := by
  intro n
  cases n with
  | zero => rfl
  | succ m => simp [resolveLink, h]

theorem path_exists_of_none (fs : FS) (p : Path) (h : fsLookup fs p = none) :
    path_exists fs p = false := by
  simp [path_exists, resolveLink_none fs p h]

theorem path_exists_of_dir (fs : FS) (p : Path) (m : Nat)
    (h : fsLookup fs p = some (.dir m)) : path_exists fs p = true := by
  simp [path_exists, resolveLink_of_dir fs fs.length p m h]

theorem isdir_of_dir (fs : FS) (p : Path) (m : Nat)
    (h : fsLookup fs p = some (.dir m)) : isdir fs p = true := by
  simp [isdir, resolveLink_of_dir fs fs.length p m h, h]

theorem lookupIsDir_dir (fs : FS) (p : Path) (h : lookupIsDir fs p = true) :
    ∃ m, fsLookup fs p = some (.dir m) := by
  unfold lookupIsDir at h
  cases hc : fsLookup fs p with
  | none => rw [hc] at h; exact absurd h (by simp)
  | some o => cases o with
    | file c m => rw [hc] at h; exact absurd h (by simp)
    | dir m => exact ⟨m, rfl⟩
    | symlink t => rw [hc] at h; exact absurd h (by simp)

/-- **C10.** The occupancy check before creating a symlink is the
non-following `os.path.lexists`, while the leading-directory check is the
following `os.path.exists`: a dangling symlink occupying the link path — a
path on which the following test is `false` — is nevertheless detected,
removed, and replaced by the newly created link, and no other path is
touched. -/
theorem C10 (u : Umask) (fs : FS) (info : ZipInfo) (od link : Path) (t0 : String)
    (hsym : OSUtils._is_symlink info = true)
    (hlink : link = normpath (od ++ info.filename))
    (hdangle : fsLookup fs link = some (.symlink t0))
    (hnofollow : path_exists fs link = false)
    (hlead : path_exists fs link.dropLast = true) :
    OSUtils._extract fs u info od =
      .ok (fsSet (fsRemove fs link) link (.symlink info.content)) link ∧
    fsLookup (fsSet (fsRemove fs link) link (.symlink info.content)) link =
      some (.symlink info.content) ∧
    ∀ q, q ≠ link →
      fsLookup (fsSet (fsRemove fs link) link (.symlink info.content)) q = fsLookup fs q := by
  subst hlink
  refine ⟨?_, fsLookup_fsSet_self _ _ _, fun q hq => ?_⟩
  · have hlex : lexists fs (normpath (od ++ info.filename)) = true := by
      simp [lexists, hdangle]
    have hlex2 : lexists (fsRemove fs (normpath (od ++ info.filename)))
        (normpath (od ++ info.filename)) = false := by
      simp [lexists, fsLookup_fsRemove]
    simp [OSUtils._extract, hsym, hlead, hlex, os_remove, hdangle, os_symlink, hlex2]
  · rw [fsLookup_fsSet_ne _ _ _ _ (Ne.symm hq), fsLookup_fsRemove, if_neg hq]

/-- Witness for `C10`: `exFSDangling` holds a dangling symlink (target
`missing` does not resolve) at the link path; extraction replaces it. -/
theorem C10_witness :
    OSUtils._extract exFSDangling exUmask exLinkEntry ["out"] =
      .ok (fsSet (fsRemove exFSDangling ["out", "l"]) ["out", "l"] (.symlink "f.txt"))
        ["out", "l"] ∧
    fsLookup (fsSet (fsRemove exFSDangling ["out", "l"]) ["out", "l"] (.symlink "f.txt"))
      ["out", "l"] = some (.symlink "f.txt") :=
  ⟨(C10 exUmask exFSDangling exLinkEntry ["out"] ["out", "l"] "missing" (by decide)
      (by decide) (by decide) (by decide) (by decide)).1,
   (C10 exUmask exFSDangling exLinkEntry ["out"] ["out", "l"] "missing" (by decide)
      (by decide) (by decide) (by decide) (by decide)).2.1⟩

/-- Witness for `C6`: a run whose final entry in archive order is a symlink:
`unzip` goes straight from the loop to deleting the archive, and the output
directory keeps its pre-run mode `0o700` despite the override `0o755`. -/
theorem C6_witness :
    OSUtils.unzip exFS exUmask (some [exFileEntry, exLinkEntry]) ["a.zip"] ["out"]
        (some 493) = os_remove exLoopFS ["a.zip"] ∧
    fsLookup (OSUtils.unzip exFS exUmask (some [exFileEntry, exLinkEntry]) ["a.zip"]
        ["out"] (some 493)).fs ["out"] = fsLookup exLoopFS ["out"] :=
  ⟨(C6 exUmask exFS exLoopFS [exFileEntry, exLinkEntry] ["a.zip"] ["out"] ["out", "l"]
      (some 493) (by decide)).1 (by decide),
   (C6 exUmask exFS exLoopFS [exFileEntry, exLinkEntry] ["a.zip"] ["out"] ["out", "l"]
      (some 493) (by decide)).2.2 (by decide) (by decide)⟩

/-- **C2 counterexample.** Two successful runs with override `0o755`, each
refuting "every regular file and directory in the output, including outputDir
itself, ends with exactly the override mode".  First: when the last entry is
a symlink, the output directory — a directory in the output, the root itself
— still ends with its old mode `0o700`.  Second: a run whose nested entry
`d/e/g.txt` makes the extractor create the leading directory `out/d`
implicitly; that directory is part of the output yet ends with the default
creation mode `0o777`, not the override mode — only entry target paths and
(conditionally) the root are ever chmod'd. -/
theorem C2_counterexample :
    (OSUtils.unzip exFS exUmask (some [exFileEntry, exLinkEntry]) ["a.zip"] ["out"]
        (some 493) =
      .ok [(["out", "l"], .symlink "f.txt"), (["out", "f.txt"], .file "hi" 493),
        (["out"], .dir 448)] () ∧
    fsLookup (OSUtils.unzip exFS exUmask (some [exFileEntry, exLinkEntry]) ["a.zip"]
        ["out"] (some 493)).fs ["out"] = some (.dir 448) ∧
    (448 : Nat) ≠ 493) ∧
    ((OSUtils.unzip exFS exUmask (some [exFileEntry, exDeepEntry]) ["a.zip"] ["out"]
        (some 493)).isOk = true ∧
    fsLookup (OSUtils.unzip exFS exUmask (some [exFileEntry, exDeepEntry]) ["a.zip"]
        ["out"] (some 493)).fs ["out", "d"] = some (.dir 511) ∧
    (511 : Nat) ≠ 493) := by
  refine ⟨⟨by decide, by decide, by decide⟩, by decide, by decide, by decide⟩

/-- **C5 counterexample.** When the object already occupying the symlink's
path is a directory, `os.remove` raises `IsADirectoryError` instead of
removing it: extraction fails, refuting "if a filesystem object already
exists at that exact path it is removed first ... so extraction succeeds even
when ... a stale object occupied the link path". -/
theorem C5_counterexample :
    OSUtils._extract exFSStaleDir exUmask exLinkEntry ["out"] =
      .err exFSStaleDir .fsError ∧
    OSUtils.unzip exFSStaleDir exUmask (some [exLinkEntry]) ["a.zip"] ["out"]
        (some 493) = .err exFSStaleDir .fsError := by
  refine ⟨by decide, by decide⟩

theorem lookupIsDir_eq_of_lookup (fs fs2 : FS) (p : Path)
    (h : fsLookup fs2 p = fsLookup fs p) : lookupIsDir fs2 p = lookupIsDir fs p := by
  simp [lookupIsDir, h]

theorem append_take_cons (acc : Path) (c : String) (rest : List String) (k : Nat) :
    acc ++ (c :: rest).take (k + 1) = (acc ++ [c]) ++ rest.take k := by
  simp [List.take_succ_cons]

/-- `ensureParents` never alters a path that already holds an object. -/
theorem ensureParents_mono (d : Nat) :
    ∀ (comps : List String) (fs : FS) (acc : Path) (q : Path) (o : FSObj),
      fsLookup fs q = some o →
      fsLookup (ensureParents fs d acc comps).fs q = some o := by
  intro comps
  induction comps with
  | nil => intro fs acc q o h; exact h
  | cons c rest ih =>
    intro fs acc q o h
    simp only [ensureParents]
    by_cases hex : path_exists fs (acc ++ [c]) = true
    · rw [if_pos hex]
      by_cases hd : isdir fs (acc ++ [c]) = true
      · rw [if_pos hd]; exact ih fs (acc ++ [c]) q o h
      · rw [if_neg hd]; exact h
    · rw [if_neg hex]
      cases hc : fsLookup fs (acc ++ [c]) with
      | none =>
        have hq : (acc ++ [c]) ≠ q := by
          intro e; rw [e, h] at hc; cases hc
        exact ih _ _ q o (by rw [fsLookup_fsSet_ne _ _ _ _ hq]; exact h)
      | some o2 => exact h

/-- `ensureParents` touches only the prefix paths it walks. -/
theorem ensureParents_untouched (d : Nat) :
    ∀ (comps : List String) (fs : FS) (acc : Path) (q : Path),
      (∀ k, k ≤ comps.length → 0 < k → q ≠ acc ++ comps.take k) →
      fsLookup (ensureParents fs d acc comps).fs q = fsLookup fs q := by
  intro comps
  induction comps with
  | nil => intro fs acc q _; rfl
  | cons c rest ih =>
    intro fs acc q hq
    have hq1 : q ≠ acc ++ [c] := by
      have := hq 1 (by simp) one_pos
      simpa using this
    have hq' : ∀ k, k ≤ rest.length → 0 < k → q ≠ (acc ++ [c]) ++ rest.take k := by
      intro k hk hk0
      have := hq (k + 1) (by simp; omega) (Nat.succ_pos k)
      rwa [append_take_cons] at this
    simp only [ensureParents]
    by_cases hex : path_exists fs (acc ++ [c]) = true
    · rw [if_pos hex]
      by_cases hd : isdir fs (acc ++ [c]) = true
      · rw [if_pos hd]; exact ih fs (acc ++ [c]) q hq'
      · rw [if_neg hd]; rfl
    · rw [if_neg hex]
      cases hc : fsLookup fs (acc ++ [c]) with
      | none =>
        rw [ih _ _ q hq', fsLookup_fsSet_ne _ _ _ _ (Ne.symm hq1)]
      | some o2 => rfl

/-- When every prefix on the way is a directory or absent, `ensureParents`
succeeds and leaves a directory at every prefix. -/
theorem ensureParents_ok (d : Nat) :
    ∀ (comps : List String) (fs : FS) (acc : Path),
      (∀ k, k ≤ comps.length → 0 < k →
        lookupIsDir fs (acc ++ comps.take k) = true ∨
        fsLookup fs (acc ++ comps.take k) = none) →
      ∃ fs', ensureParents fs d acc comps = .ok fs' () ∧
        (∀ k, k ≤ comps.length → 0 < k → lookupIsDir fs' (acc ++ comps.take k) = true) := by
  intro comps
  induction comps with
  | nil =>
    intro fs acc _
    exact ⟨fs, rfl, by intro k hk hk0; simp only [List.length_nil] at hk; omega⟩
  | cons c rest ih =>
    intro fs acc hp
    have h1 := hp 1 (by simp) one_pos
    rw [show acc ++ (c :: rest).take 1 = acc ++ [c] from by simp] at h1
    rcases h1 with hdir | hnone
    · obtain ⟨m, hm⟩ := lookupIsDir_dir fs (acc ++ [c]) hdir
      have hex := path_exists_of_dir fs (acc ++ [c]) m hm
      have hisd := isdir_of_dir fs (acc ++ [c]) m hm
      have hp' : ∀ k, k ≤ rest.length → 0 < k →
          lookupIsDir fs ((acc ++ [c]) ++ rest.take k) = true ∨
          fsLookup fs ((acc ++ [c]) ++ rest.take k) = none := by
        intro k hk hk0
        have := hp (k + 1) (by simp only [List.length_cons]; omega) (Nat.succ_pos k)
        rwa [append_take_cons] at this
      obtain ⟨fs', heq, hdirs⟩ := ih fs (acc ++ [c]) hp'
      refine ⟨fs', ?_, ?_⟩
      · simp only [ensureParents, hex, if_true, hisd]; exact heq
      · intro k hk hk0
        cases k with
        | zero => omega
        | succ k0 =>
          rw [append_take_cons]
          cases k0 with
          | zero =>
            have hmono := ensureParents_mono d rest fs (acc ++ [c]) (acc ++ [c]) (.dir m) hm
            rw [heq] at hmono
            have hmono2 : fsLookup fs' (acc ++ [c]) = some (FSObj.dir m) := hmono
            simp only [List.take_zero, List.append_nil]
            simp [lookupIsDir, hmono2]
          | succ k1 =>
            exact hdirs (k1 + 1) (by simpa using hk) (Nat.succ_pos _)
    · have hex : path_exists fs (acc ++ [c]) = false := path_exists_of_none _ _ hnone
      have hm2 : fsLookup (fsSet fs (acc ++ [c]) (.dir d)) (acc ++ [c]) = some (.dir d) :=
        fsLookup_fsSet_self _ _ _
      have hp' : ∀ k, k ≤ rest.length → 0 < k →
          lookupIsDir (fsSet fs (acc ++ [c]) (.dir d)) ((acc ++ [c]) ++ rest.take k) = true ∨
          fsLookup (fsSet fs (acc ++ [c]) (.dir d)) ((acc ++ [c]) ++ rest.take k) = none := by
        intro k hk hk0
        have hlen : (acc ++ [c]) ≠ (acc ++ [c]) ++ rest.take k := by
          intro e
          have he := congrArg List.length e
          rw [List.length_append (acc ++ [c]) (rest.take k), List.length_take] at he
          have hmin : min k rest.length = k := Nat.min_eq_left hk
          omega
        have htr : fsLookup (fsSet fs (acc ++ [c]) (.dir d)) ((acc ++ [c]) ++ rest.take k) =
            fsLookup fs ((acc ++ [c]) ++ rest.take k) :=
          fsLookup_fsSet_ne _ _ _ _ hlen
        have := hp (k + 1) (by simp only [List.length_cons]; omega) (Nat.succ_pos k)
        rw [append_take_cons] at this
        rcases this with hd2 | hn2
        · left; rw [lookupIsDir_eq_of_lookup fs _ _ htr]; exact hd2
        · right; rw [htr]; exact hn2
      obtain ⟨fs', heq, hdirs⟩ := ih (fsSet fs (acc ++ [c]) (.dir d)) (acc ++ [c]) hp'
      have hstep : ensureParents fs d acc (c :: rest) =
          ensureParents (fsSet fs (acc ++ [c]) (.dir d)) d (acc ++ [c]) rest := by
        simp only [ensureParents]
        rw [if_neg (by simp [hex]), hnone]
      refine ⟨fs', by rw [hstep]; exact heq, ?_⟩
      · intro k hk hk0
        cases k with
        | zero => omega
        | succ k0 =>
          rw [append_take_cons]
          cases k0 with
          | zero =>
            have hmono := ensureParents_mono d rest _ (acc ++ [c]) (acc ++ [c]) (.dir d) hm2
            rw [heq] at hmono
            have hmono2 : fsLookup fs' (acc ++ [c]) = some (FSObj.dir d) := hmono
            simp only [List.take_zero, List.append_nil]
            simp [lookupIsDir, hmono2]
          | succ k1 =>
            exact hdirs (k1 + 1) (by simpa using hk) (Nat.succ_pos _)

theorem dropLast_take (p : Path) (k : Nat) (h : k ≤ p.length - 1) :
    p.dropLast.take k = p.take k := by
  rw [List.dropLast_eq_take, List.take_take]
  congr 1
  omega

/-- Specification of a successful `os.makedirs p`: every prefix on the way is
a directory or absent and `p` itself is absent; afterwards every prefix of
`p`, `p` included, holds a directory, and no other path changed. -/
theorem makedirs_spec (d : Nat) (fs : FS) (p : Path) (hne : p ≠ [])
    (hpre : ∀ k, k < p.length → 0 < k →
      lookupIsDir fs (p.take k) = true ∨ fsLookup fs (p.take k) = none)
    (hself : fsLookup fs p = none) :
    ∃ fs', makedirs fs d p = .ok fs' () ∧
      (∀ k, k ≤ p.length → 0 < k → lookupIsDir fs' (p.take k) = true) ∧
      (∀ q, (∀ k, k ≤ p.length → 0 < k → q ≠ p.take k) → fsLookup fs' q = fsLookup fs q) := by
  have hlen : 0 < p.length := List.length_pos.mpr hne
  have hdl : p.dropLast.length = p.length - 1 := List.length_dropLast p
  have hp : ∀ k, k ≤ p.dropLast.length → 0 < k →
      lookupIsDir fs ([] ++ p.dropLast.take k) = true ∨
      fsLookup fs ([] ++ p.dropLast.take k) = none := by
    intro k hk hk0
    rw [List.nil_append, dropLast_take p k (by omega)]
    exact hpre k (by omega) hk0
  obtain ⟨fs1, heq, hdirs⟩ := ensureParents_ok d p.dropLast fs [] hp
  have htake_ne : ∀ k, k < p.length → p.take k ≠ p := by
    intro k hk e
    have : (p.take k).length = p.length := by rw [e]
    simp [List.length_take] at this
    omega
  have hq1 : ∀ k, k ≤ p.dropLast.length → 0 < k → p ≠ [] ++ p.dropLast.take k := by
    intro k hk hk0
    rw [List.nil_append, dropLast_take p k (by omega)]
    exact fun e => htake_ne k (by omega) e.symm
  have hfs1p : fsLookup fs1 p = none := by
    have h2 := ensureParents_untouched d p.dropLast fs [] p hq1
    rw [heq] at h2
    have h3 : fsLookup fs1 p = fsLookup fs p := h2
    rw [h3]
    exact hself
  have hmk : os_mkdir fs1 d p = .ok (fsSet fs1 p (.dir d)) () := by
    simp [os_mkdir, lexists, hfs1p]
  refine ⟨fsSet fs1 p (.dir d), ?_, ?_, ?_⟩
  · simp only [makedirs]
    rw [if_neg hne, heq]
    exact hmk
  · intro k hk hk0
    rcases Nat.lt_or_ge k p.length with hklt | hkge
    · have hne2 : p ≠ p.take k := fun e => htake_ne k hklt e.symm
      rw [lookupIsDir_eq_of_lookup fs1 _ _ (fsLookup_fsSet_ne _ _ _ _ hne2)]
      have := hdirs k (by omega) hk0
      rwa [List.nil_append, dropLast_take p k (by omega)] at this
    · have hkeq : k = p.length := by omega
      subst hkeq
      rw [List.take_length]
      simp [lookupIsDir, fsLookup_fsSet_self]
  · intro q hq
    have hqp : p ≠ q := by
      have h4 := hq p.length le_rfl hlen
      rw [List.take_length] at h4
      exact Ne.symm h4
    rw [fsLookup_fsSet_ne _ _ _ _ hqp]
    have h5 := ensureParents_untouched d p.dropLast fs [] q (by
      intro k hk hk0
      rw [List.nil_append, dropLast_take p k (by omega)]
      exact hq k (by omega) hk0)
    rw [heq] at h5
    exact h5

/-- Unfolding of `_extract` on a symlink-classified entry. -/
theorem extract_symlink_unfold (fs : FS) (u : Umask) (info : ZipInfo) (od : Path)
    (hsym : OSUtils._is_symlink info = true) :
    OSUtils._extract fs u info od =
      (match (if path_exists fs (normpath (od ++ info.filename)).dropLast = false
              then makedirs fs u.dirMode (normpath (od ++ info.filename)).dropLast
              else .ok fs ()) with
       | .err fs1 e => .err fs1 e
       | .ok fs1 _ =>
         match (if lexists fs1 (normpath (od ++ info.filename))
                then os_remove fs1 (normpath (od ++ info.filename)) else .ok fs1 ()) with
         | .err fs2 e => .err fs2 e
         | .ok fs2 _ =>
           match os_symlink fs2 info.content (normpath (od ++ info.filename)) with
           | .err fs3 e => .err fs3 e
           | .ok fs3 _ => .ok fs3 (normpath (od ++ info.filename))) := by
  simp only [OSUtils._extract, hsym, Bool.true_eq_false, if_false]

/-- The remove-then-create tail of the symlink branch succeeds whenever the
link path does not hold a directory, replaces whatever was there by the new
link, and touches nothing else. -/
theorem extract_symlink_tail (fs1 : FS) (src : String) (link : Path)
    (hnotdir : lookupIsDir fs1 link = false) :
    ∃ fs', ((match (if lexists fs1 link then os_remove fs1 link else Res.ok fs1 ()) with
       | Res.err fs2 e => Res.err fs2 e
       | Res.ok fs2 _ =>
         match os_symlink fs2 src link with
         | Res.err fs3 e => Res.err fs3 e
         | Res.ok fs3 _ => Res.ok fs3 link) : Res Path) = Res.ok fs' link ∧
      fsLookup fs' link = some (.symlink src) ∧
      ∀ q, q ≠ link → fsLookup fs' q = fsLookup fs1 q := by
  cases hc : fsLookup fs1 link with
  | none =>
    have hlex : lexists fs1 link = false := by simp [lexists, hc]
    refine ⟨fsSet fs1 link (.symlink src), ?_, fsLookup_fsSet_self _ _ _, ?_⟩
    · rw [if_neg (by simp [hlex])]
      simp [os_symlink, hlex]
    · intro q hq; rw [fsLookup_fsSet_ne _ _ _ _ (Ne.symm hq)]
  | some o =>
    have hlex : lexists fs1 link = true := by simp [lexists, hc]
    have hlex2 : lexists (fsRemove fs1 link) link = false := by
      simp [lexists, fsLookup_fsRemove]
    cases o with
    | dir m => simp [lookupIsDir, hc] at hnotdir
    | file c m =>
      have hrm : os_remove fs1 link = .ok (fsRemove fs1 link) () := by
        simp [os_remove, hc]
      refine ⟨fsSet (fsRemove fs1 link) link (.symlink src), ?_,
        fsLookup_fsSet_self _ _ _, ?_⟩
      · rw [if_pos hlex, hrm]
        simp [os_symlink, hlex2]
      · intro q hq
        rw [fsLookup_fsSet_ne _ _ _ _ (Ne.symm hq), fsLookup_fsRemove, if_neg hq]
    | symlink t =>
      have hrm : os_remove fs1 link = .ok (fsRemove fs1 link) () := by
        simp [os_remove, hc]
      refine ⟨fsSet (fsRemove fs1 link) link (.symlink src), ?_,
        fsLookup_fsSet_self _ _ _, ?_⟩
      · rw [if_pos hlex, hrm]
        simp [os_symlink, hlex2]
      · intro q hq
        rw [fsLookup_fsSet_ne _ _ _ _ (Ne.symm hq), fsLookup_fsRemove, if_neg hq]

/-- **C5 (amended).** For a symlink-classified entry: the link's filesystem
path is the normalized join of the output directory and the entry's relative
path; any missing leading directories are created; a stale non-directory
object (regular file, symlink — dangling included — or nothing at all, which
is what `hstale` allows) at that exact path is removed if present; and a
symbolic link is then created there whose target is the entry's content
(UTF-8 decoded), so every proper prefix of the link path holds a directory
afterwards.  The original claim also allowed a stale directory at the path —
refuted by `C5_counterexample`, because `os.remove` raises on directories. -/
theorem C5_amended (u : Umask) (fs : FS) (info : ZipInfo) (od link : Path)
    (hsym : OSUtils._is_symlink info = true)
    (hlink : link = normpath (od ++ info.filename))
    (hlen : 1 < link.length)
    (hpre : ∀ k, k < link.length → 0 < k →
      lookupIsDir fs (link.take k) = true ∨ fsLookup fs (link.take k) = none)
    (hdown : ∀ k, k < link.length → ∀ j, j ≤ k → 0 < j →
      fsLookup fs (link.take j) = none → fsLookup fs (link.take k) = none)
    (hstale : lookupIsDir fs link = false) :
    ∃ fs', OSUtils._extract fs u info od = .ok fs' link ∧
      fsLookup fs' link = some (.symlink info.content) ∧
      (∀ k, k < link.length → 0 < k → lookupIsDir fs' (link.take k) = true) := by
  have hunf := extract_symlink_unfold fs u info od hsym
  rw [← hlink] at hunf
  have hlead_take : link.dropLast = link.take (link.length - 1) := List.dropLast_eq_take link
  have htake_ne : ∀ k, k < link.length → link.take k ≠ link := by
    intro k hk e
    have h2 := congrArg List.length e
    rw [List.length_take] at h2
    omega
  cases hex : path_exists fs link.dropLast with
  | true =>
    have hld : lookupIsDir fs (link.take (link.length - 1)) = true := by
      rcases hpre (link.length - 1) (by omega) (by omega) with h | h
      · exact h
      · exfalso
        have h2 : path_exists fs link.dropLast = false := by
          rw [hlead_take]; exact path_exists_of_none _ _ h
        rw [h2] at hex; cases hex
    have alldirs : ∀ k, k < link.length → 0 < k → lookupIsDir fs (link.take k) = true := by
      intro k hk hk0
      rcases hpre k hk hk0 with h | h
      · exact h
      · exfalso
        have h2 := hdown (link.length - 1) (by omega) k (by omega) hk0 h
        obtain ⟨m, hm⟩ := lookupIsDir_dir _ _ hld
        rw [h2] at hm; cases hm
    rw [hunf, if_neg (by simp [hex])]
    obtain ⟨fs', hE, hL2, hU⟩ := extract_symlink_tail fs info.content link hstale
    refine ⟨fs', hE, hL2, ?_⟩
    intro k hk hk0
    rw [lookupIsDir_eq_of_lookup fs fs' _ (hU _ (htake_ne k hk))]
    exact alldirs k hk hk0
  | false =>
    have hldnone : fsLookup fs link.dropLast = none := by
      rcases hpre (link.length - 1) (by omega) (by omega) with h | h
      · exfalso
        obtain ⟨m, hm⟩ := lookupIsDir_dir _ _ h
        have h2 : path_exists fs link.dropLast = true := by
          rw [hlead_take]; exact path_exists_of_dir _ _ m hm
        rw [h2] at hex; cases hex
      · rw [hlead_take]; exact h
    have hdllen : link.dropLast.length = link.length - 1 := List.length_dropLast link
    have hdlne : link.dropLast ≠ [] := by
      have h2 : 0 < link.dropLast.length := by omega
      exact List.length_pos.mp h2
    have hpre2 : ∀ k, k < link.dropLast.length → 0 < k →
        lookupIsDir fs (link.dropLast.take k) = true ∨
        fsLookup fs (link.dropLast.take k) = none := by
      intro k hk hk0
      rw [dropLast_take link k (by omega)]
      exact hpre k (by omega) hk0
    obtain ⟨fs1, heqmk, hdirs1, hunt⟩ :=
      makedirs_spec u.dirMode fs link.dropLast hdlne hpre2 hldnone
    have havoid : ∀ k, k ≤ link.dropLast.length → 0 < k → link ≠ link.dropLast.take k := by
      intro k hk hk0
      rw [dropLast_take link k (by omega)]
      exact fun e => htake_ne k (by omega) e.symm
    have hlink_unch : fsLookup fs1 link = fsLookup fs link := hunt link havoid
    have hstale1 : lookupIsDir fs1 link = false := by
      rw [lookupIsDir_eq_of_lookup fs fs1 link hlink_unch]; exact hstale
    rw [hunf, if_pos hex, heqmk]
    obtain ⟨fs', hE, hL2, hU⟩ := extract_symlink_tail fs1 info.content link hstale1
    refine ⟨fs', hE, hL2, ?_⟩
    intro k hk hk0
    rw [lookupIsDir_eq_of_lookup fs1 fs' _ (hU _ (htake_ne k hk))]
    have h3 := hdirs1 k (by omega) hk0
    rwa [dropLast_take link k (by omega)] at h3

/-- Witness for `C5_amended`: (a) a stale regular file at the link path is
removed and replaced by the link; (b) a link nested inside a
not-yet-existing directory gets its leading directory created. -/
theorem C5_amended_witness :
    (∃ fs', OSUtils._extract exFSStaleFile exUmask exLinkEntry ["out"] =
        .ok fs' ["out", "l"] ∧
      fsLookup fs' ["out", "l"] = some (.symlink "f.txt") ∧
      (∀ k, k < (["out", "l"] : Path).length → 0 < k →
        lookupIsDir fs' ((["out", "l"] : Path).take k) = true)) ∧
    (∃ fs', OSUtils._extract [(["out"], .dir 448)] exUmask exDeepLinkEntry ["out"] =
        .ok fs' ["out", "sub", "l2"] ∧
      fsLookup fs' ["out", "sub", "l2"] = some (.symlink "t") ∧
      (∀ k, k < (["out", "sub", "l2"] : Path).length → 0 < k →
        lookupIsDir fs' ((["out", "sub", "l2"] : Path).take k) = true)) :=
  ⟨C5_amended exUmask exFSStaleFile exLinkEntry ["out"] ["out", "l"] (by decide)
      (by decide) (by decide) (by decide) (by decide) (by decide),
   C5_amended exUmask [(["out"], .dir 448)] exDeepLinkEntry ["out"] ["out", "sub", "l2"]
      (by decide) (by decide) (by decide) (by decide) (by decide) (by decide)⟩

/-! Existence-preservation lemmas: no operation of the loop ever removes an
object, except `os.remove` at the symlink path itself. -/

theorem lexists_iff (fs : FS) (q : Path) :
    lexists fs q = true ↔ ∃ o, fsLookup fs q = some o := by
  unfold lexists
  cases fsLookup fs q <;> simp

theorem lexists_fsSet_of (fs : FS) (p q : Path) (o : FSObj)
    (h : lexists fs q = true) : lexists (fsSet fs p o) q = true := by
  by_cases hpq : p = q
  · subst hpq; simp [lexists, fsLookup_fsSet_self]
  · unfold lexists at h ⊢; rwa [fsLookup_fsSet_ne _ _ _ _ hpq]

theorem makedirs_mono (d : Nat) (fs : FS) (p q : Path) (o : FSObj)
    (h : fsLookup fs q = some o) : fsLookup (makedirs fs d p).fs q = some o := by
  by_cases hp : p = []
  · have he : makedirs fs d p = .err fs .fsError := by
      unfold makedirs; rw [if_pos hp]
    rw [he]; exact h
  · cases hep : ensureParents fs d [] p.dropLast with
    | err fs1 e =>
      have he : makedirs fs d p = .err fs1 e := by
        unfold makedirs; rw [if_neg hp, hep]
      rw [he]
      have h1 := ensureParents_mono d p.dropLast fs [] q o h
      rw [hep] at h1
      exact h1
    | ok fs1 v =>
      have h1 := ensureParents_mono d p.dropLast fs [] q o h
      rw [hep] at h1
      have h2 : fsLookup fs1 q = some o := h1
      by_cases hl : lexists fs1 p = true
      · have he : makedirs fs d p = .err fs1 .fsError := by
          unfold makedirs
          rw [if_neg hp]
          simp only [hep]
          unfold os_mkdir
          rw [if_pos hl]
        rw [he]; exact h2
      · have he : makedirs fs d p = .ok (fsSet fs1 p (.dir d)) () := by
          unfold makedirs
          rw [if_neg hp]
          simp only [hep]
          unfold os_mkdir
          rw [if_neg hl]
        rw [he]
        by_cases hqp : p = q
        · subst hqp
          exact absurd (by simp [lexists, h2]) hl
        · show fsLookup (fsSet fs1 p (FSObj.dir d)) q = some o
          rwa [fsLookup_fsSet_ne _ _ _ _ hqp]

theorem makedirs_lex (d : Nat) (fs : FS) (p q : Path)
    (h : lexists fs q = true) : lexists (makedirs fs d p).fs q = true := by
  obtain ⟨o, ho⟩ := (lexists_iff fs q).mp h
  exact (lexists_iff _ q).mpr ⟨o, makedirs_mono d fs p q o ho⟩

theorem os_chmod_lex (fs : FS) (p : Path) (m : Nat) (q : Path)
    (h : lexists fs q = true) : lexists (os_chmod fs p m).fs q = true := by
  cases hres : resolveLink fs (fs.length + 1) p with
  | none =>
    have he : os_chmod fs p m = .err fs .fsError := by unfold os_chmod; rw [hres]
    rw [he]; exact h
  | some r =>
    cases hlook : fsLookup fs r with
    | none =>
      have he : os_chmod fs p m = .err fs .fsError := by
        unfold os_chmod; rw [hres]; simp [hlook]
      rw [he]; exact h
    | some o =>
      cases o with
      | file c m0 =>
        have he : os_chmod fs p m = .ok (fsSet fs r (.file c m)) () := by
          unfold os_chmod; rw [hres]; simp [hlook]
        rw [he]; exact lexists_fsSet_of fs r q _ h
      | dir m0 =>
        have he : os_chmod fs p m = .ok (fsSet fs r (.dir m)) () := by
          unfold os_chmod; rw [hres]; simp [hlook]
        rw [he]; exact lexists_fsSet_of fs r q _ h
      | symlink t =>
        have he : os_chmod fs p m = .err fs .fsError := by
          unfold os_chmod; rw [hres]; simp [hlook]
        rw [he]; exact h

theorem write_file_lex (fs : FS) (fm : Nat) (p : Path) (c : String) (q : Path)
    (h : lexists fs q = true) : lexists (write_file fs fm p c).fs q = true := by
  cases hlook : fsLookup fs p with
  | none =>
    have he : write_file fs fm p c = .ok (fsSet fs p (.file c fm)) () := by
      unfold write_file; rw [hlook]
    rw [he]; exact lexists_fsSet_of fs p q _ h
  | some o =>
    cases o with
    | file c0 m0 =>
      have he : write_file fs fm p c = .ok (fsSet fs p (.file c m0)) () := by
        unfold write_file; rw [hlook]
      rw [he]; exact lexists_fsSet_of fs p q _ h
    | dir m0 =>
      have he : write_file fs fm p c = .err fs .fsError := by
        unfold write_file; rw [hlook]
      rw [he]; exact h
    | symlink t =>
      have he : write_file fs fm p c = .err fs .fsError := by
        unfold write_file; rw [hlook]
      rw [he]; exact h

theorem os_mkdir_lex (d : Nat) (fs : FS) (p q : Path)
    (h : lexists fs q = true) : lexists (os_mkdir fs d p).fs q = true := by
  by_cases hl : lexists fs p = true
  · have he : os_mkdir fs d p = .err fs .fsError := by unfold os_mkdir; rw [if_pos hl]
    rw [he]; exact h
  · have he : os_mkdir fs d p = .ok (fsSet fs p (.dir d)) () := by
      unfold os_mkdir; rw [if_neg hl]
    rw [he]; exact lexists_fsSet_of fs p q _ h

theorem os_symlink_lex (fs : FS) (src : String) (p q : Path)
    (h : lexists fs q = true) : lexists (os_symlink fs src p).fs q = true := by
  by_cases hl : lexists fs p = true
  · have he : os_symlink fs src p = .err fs .fsError := by unfold os_symlink; rw [if_pos hl]
    rw [he]; exact h
  · have he : os_symlink fs src p = .ok (fsSet fs p (.symlink src)) () := by
      unfold os_symlink; rw [if_neg hl]
    rw [he]; exact lexists_fsSet_of fs p q _ h

theorem os_remove_lex_ne (fs : FS) (p q : Path) (hq : q ≠ p)
    (h : lexists fs q = true) : lexists (os_remove fs p).fs q = true := by
  cases hlook : fsLookup fs p with
  | none =>
    have he : os_remove fs p = .err fs .fsError := by unfold os_remove; rw [hlook]
    rw [he]; exact h
  | some o =>
    cases o with
    | file c m =>
      have he : os_remove fs p = .ok (fsRemove fs p) () := by unfold os_remove; rw [hlook]
      rw [he]
      unfold lexists at h ⊢
      show (fsLookup (fsRemove fs p) q).isSome = true
      rwa [fsLookup_fsRemove, if_neg hq]
    | dir m =>
      have he : os_remove fs p = .err fs .fsError := by unfold os_remove; rw [hlook]
      rw [he]; exact h
    | symlink t =>
      have he : os_remove fs p = .ok (fsRemove fs p) () := by unfold os_remove; rw [hlook]
      rw [he]
      unfold lexists at h ⊢
      show (fsLookup (fsRemove fs p) q).isSome = true
      rwa [fsLookup_fsRemove, if_neg hq]

theorem zip_extract_lex (fs : FS) (u : Umask) (info : ZipInfo) (od q : Path)
    (h : lexists fs q = true) : lexists (zip_extract fs u info od).fs q = true := by
  cases hmk : (if (normpath (od ++ sanitizeArcname info.filename)).dropLast ≠ [] ∧
      path_exists fs ((normpath (od ++ sanitizeArcname info.filename)).dropLast) = false
    then makedirs fs u.dirMode ((normpath (od ++ sanitizeArcname info.filename)).dropLast)
    else Res.ok fs ()) with
  | err fs1 e =>
    have h1 : lexists fs1 q = true := by
      by_cases hc : (normpath (od ++ sanitizeArcname info.filename)).dropLast ≠ [] ∧
          path_exists fs ((normpath (od ++ sanitizeArcname info.filename)).dropLast) = false
      · rw [if_pos hc] at hmk
        have h2 := makedirs_lex u.dirMode fs
          ((normpath (od ++ sanitizeArcname info.filename)).dropLast) q h
        rw [hmk] at h2
        exact h2
      · rw [if_neg hc] at hmk
        cases hmk
    have he : zip_extract fs u info od = .err fs1 e := by
      simp only [zip_extract]
      rw [hmk]
    rw [he]; exact h1
  | ok fs1 v =>
    have h1 : lexists fs1 q = true := by
      by_cases hc : (normpath (od ++ sanitizeArcname info.filename)).dropLast ≠ [] ∧
          path_exists fs ((normpath (od ++ sanitizeArcname info.filename)).dropLast) = false
      · rw [if_pos hc] at hmk
        have h2 := makedirs_lex u.dirMode fs
          ((normpath (od ++ sanitizeArcname info.filename)).dropLast) q h
        rw [hmk] at h2
        exact h2
      · rw [if_neg hc] at hmk
        cases hmk
        exact h
    cases hd : info.isDirEntry with
    | true =>
      cases hid : isdir fs1 (normpath (od ++ sanitizeArcname info.filename)) with
      | true =>
        have he : zip_extract fs u info od =
            .ok fs1 (normpath (od ++ sanitizeArcname info.filename)) := by
          simp only [zip_extract]
          rw [hmk]
          simp [hd, hid]
        rw [he]; exact h1
      | false =>
        cases hmk2 : os_mkdir fs1 u.dirMode (normpath (od ++ sanitizeArcname info.filename)) with
        | err fs2 e =>
          have he : zip_extract fs u info od = .err fs2 e := by
            simp only [zip_extract]
            rw [hmk]
            simp [hd, hid, hmk2]
          rw [he]
          have h3 := os_mkdir_lex u.dirMode fs1
            (normpath (od ++ sanitizeArcname info.filename)) q h1
          rw [hmk2] at h3
          exact h3
        | ok fs2 v2 =>
          have he : zip_extract fs u info od =
              .ok fs2 (normpath (od ++ sanitizeArcname info.filename)) := by
            simp only [zip_extract]
            rw [hmk]
            simp [hd, hid, hmk2]
          rw [he]
          have h3 := os_mkdir_lex u.dirMode fs1
            (normpath (od ++ sanitizeArcname info.filename)) q h1
          rw [hmk2] at h3
          exact h3
    | false =>
      cases hwf : write_file fs1 u.fileMode (normpath (od ++ sanitizeArcname info.filename))
          info.content with
      | err fs2 e =>
        have he : zip_extract fs u info od = .err fs2 e := by
          simp only [zip_extract]
          rw [hmk]
          simp [hd, hwf]
        rw [he]
        have h3 := write_file_lex fs1 u.fileMode
          (normpath (od ++ sanitizeArcname info.filename)) info.content q h1
        rw [hwf] at h3
        exact h3
      | ok fs2 v2 =>
        have he : zip_extract fs u info od =
            .ok fs2 (normpath (od ++ sanitizeArcname info.filename)) := by
          simp only [zip_extract]
          rw [hmk]
          simp [hd, hwf]
        rw [he]
        have h3 := write_file_lex fs1 u.fileMode
          (normpath (od ++ sanitizeArcname info.filename)) info.content q h1
        rw [hwf] at h3
        exact h3

theorem extract_lex (fs : FS) (u : Umask) (info : ZipInfo) (od q : Path)
    (hq : OSUtils._is_symlink info = true → q ≠ normpath (od ++ info.filename))
    (h : lexists fs q = true) : lexists (OSUtils._extract fs u info od).fs q = true := by
  cases hsym : OSUtils._is_symlink info with
  | false =>
    have he : OSUtils._extract fs u info od = zip_extract fs u info od := by
      unfold OSUtils._extract; rw [if_pos hsym]
    rw [he]; exact zip_extract_lex fs u info od q h
  | true =>
    have hq2 : q ≠ normpath (od ++ info.filename) := hq hsym
    have hunf := extract_symlink_unfold fs u info od hsym
    cases hmk : (if path_exists fs (normpath (od ++ info.filename)).dropLast = false
        then makedirs fs u.dirMode (normpath (od ++ info.filename)).dropLast
        else Res.ok fs ()) with
    | err fs1 e =>
      have h1 : lexists fs1 q = true := by
        by_cases hc : path_exists fs (normpath (od ++ info.filename)).dropLast = false
        · rw [if_pos hc] at hmk
          have h2 := makedirs_lex u.dirMode fs ((normpath (od ++ info.filename)).dropLast) q h
          rw [hmk] at h2; exact h2
        · rw [if_neg hc] at hmk; cases hmk
      have he : OSUtils._extract fs u info od = .err fs1 e := by
        rw [hunf]; simp only [hmk]
      rw [he]; exact h1
    | ok fs1 v =>
      have h1 : lexists fs1 q = true := by
        by_cases hc : path_exists fs (normpath (od ++ info.filename)).dropLast = false
        · rw [if_pos hc] at hmk
          have h2 := makedirs_lex u.dirMode fs ((normpath (od ++ info.filename)).dropLast) q h
          rw [hmk] at h2; exact h2
        · rw [if_neg hc] at hmk; cases hmk; exact h
      cases hrm : (if lexists fs1 (normpath (od ++ info.filename))
          then os_remove fs1 (normpath (od ++ info.filename)) else Res.ok fs1 ()) with
      | err fs2 e =>
        have h2 : lexists fs2 q = true := by
          by_cases hl : lexists fs1 (normpath (od ++ info.filename)) = true
          · rw [if_pos hl] at hrm
            have h3 := os_remove_lex_ne fs1 (normpath (od ++ info.filename)) q hq2 h1
            rw [hrm] at h3; exact h3
          · rw [if_neg hl] at hrm; cases hrm
        have he : OSUtils._extract fs u info od = .err fs2 e := by
          rw [hunf]; simp only [hmk, hrm]
        rw [he]; exact h2
      | ok fs2 v2 =>
        have h2 : lexists fs2 q = true := by
          by_cases hl : lexists fs1 (normpath (od ++ info.filename)) = true
          · rw [if_pos hl] at hrm
            have h3 := os_remove_lex_ne fs1 (normpath (od ++ info.filename)) q hq2 h1
            rw [hrm] at h3; exact h3
          · rw [if_neg hl] at hrm; cases hrm; exact h1
        cases hsl : os_symlink fs2 info.content (normpath (od ++ info.filename)) with
        | err fs3 e =>
          have h3 : lexists fs3 q = true := by
            have h4 := os_symlink_lex fs2 info.content (normpath (od ++ info.filename)) q h2
            rw [hsl] at h4; exact h4
          have he : OSUtils._extract fs u info od = .err fs3 e := by
            rw [hunf]; simp only [hmk, hrm, hsl]
          rw [he]; exact h3
        | ok fs3 v3 =>
          have h3 : lexists fs3 q = true := by
            have h4 := os_symlink_lex fs2 info.content (normpath (od ++ info.filename)) q h2
            rw [hsl] at h4; exact h4
          have he : OSUtils._extract fs u info od = .ok fs3 (normpath (od ++ info.filename)) := by
            rw [hunf]; simp only [hmk, hrm, hsl]
          rw [he]; exact h3

theorem set_permissions_lex (fs : FS) (info : ZipInfo) (p q : Path)
    (h : lexists fs q = true) : lexists (OSUtils._set_permissions fs info p).fs q = true := by
  unfold OSUtils._set_permissions
  by_cases h0 : info.external_attr >>> 16 = 0
  · rw [if_pos h0]; exact h
  · rw [if_neg h0]; exact os_chmod_lex fs p _ q h

theorem override_permissions_lex (fs : FS) (p q : Path) (perm : Option Nat)
    (h : lexists fs q = true) : lexists (OSUtils._override_permissions fs p perm).fs q = true := by
  cases perm with
  | none => exact h
  | some m =>
    have h0 : OSUtils._override_permissions fs p (some m) =
        if m ≠ 0 then os_chmod fs p m else Res.ok fs () := rfl
    by_cases hm : m ≠ 0
    · have he : OSUtils._override_permissions fs p (some m) = os_chmod fs p m := by
        rw [h0, if_pos hm]
      rw [he]; exact os_chmod_lex fs p m q h
    · have he : OSUtils._override_permissions fs p (some m) = .ok fs () := by
        rw [h0, if_neg hm]
      rw [he]; exact h

/-- Nothing in the loop ever removes the object at `zp` as long as no symlink
entry's link path is `zp`. -/
theorem unzipLoop_lex (u : Umask) (od zp : Path) (perm : Option Nat) :
    ∀ (entries : List ZipInfo) (fs : FS) (last : Option Path),
      (∀ info ∈ entries, OSUtils._is_symlink info = true →
        normpath (od ++ info.filename) ≠ zp) →
      lexists fs zp = true →
      lexists (OSUtils.unzipLoop u od perm fs entries last).fs zp = true := by
  intro entries
  induction entries with
  | nil => intro fs last _ h; exact h
  | cons info rest ih =>
    intro fs last hav h
    have hqne : OSUtils._is_symlink info = true → zp ≠ normpath (od ++ info.filename) :=
      fun hs => Ne.symm (hav info (by simp) hs)
    have hav2 : ∀ i ∈ rest, OSUtils._is_symlink i = true →
        normpath (od ++ i.filename) ≠ zp := fun i hi => hav i (by simp [hi])
    cases hE : OSUtils._extract fs u info od with
    | err fs1 e =>
      have he : OSUtils.unzipLoop u od perm fs (info :: rest) last = .err fs1 e := by
        simp only [OSUtils.unzipLoop, hE]
      rw [he]
      have h1 := extract_lex fs u info od zp hqne h
      rw [hE] at h1; exact h1
    | ok fs1 p =>
      have h1 : lexists fs1 zp = true := by
        have h2 := extract_lex fs u info od zp hqne h
        rw [hE] at h2; exact h2
      by_cases hl : islink fs1 p = false
      · cases hS : OSUtils._set_permissions fs1 info p with
        | err fs2 e =>
          have he : OSUtils.unzipLoop u od perm fs (info :: rest) last = .err fs2 e := by
            simp only [OSUtils.unzipLoop, hE]
            rw [if_pos hl]
            simp only [hS]
          rw [he]
          have h2 := set_permissions_lex fs1 info p zp h1
          rw [hS] at h2; exact h2
        | ok fs2 v =>
          have h2 : lexists fs2 zp = true := by
            have h3 := set_permissions_lex fs1 info p zp h1
            rw [hS] at h3; exact h3
          cases hO : OSUtils._override_permissions fs2 p perm with
          | err fs3 e =>
            have he : OSUtils.unzipLoop u od perm fs (info :: rest) last = .err fs3 e := by
              simp only [OSUtils.unzipLoop, hE]
              rw [if_pos hl]
              simp only [hS, hO]
            rw [he]
            have h3 := override_permissions_lex fs2 p zp perm h2
            rw [hO] at h3; exact h3
          | ok fs3 v2 =>
            have he : OSUtils.unzipLoop u od perm fs (info :: rest) last =
                OSUtils.unzipLoop u od perm fs3 rest (some p) := by
              simp only [OSUtils.unzipLoop, hE]
              rw [if_pos hl]
              simp only [hS, hO]
            rw [he]
            have h3 : lexists fs3 zp = true := by
              have h4 := override_permissions_lex fs2 p zp perm h2
              rw [hO] at h4; exact h4
            exact ih fs3 (some p) hav2 h3
      · have he : OSUtils.unzipLoop u od perm fs (info :: rest) last =
            OSUtils.unzipLoop u od perm fs1 rest (some p) := by
          simp only [OSUtils.unzipLoop, hE]
          rw [if_neg hl]
        rw [he]
        exact ih fs1 (some p) hav2 h1

theorem os_remove_ok_none (fs fs' : FS) (p : Path) (v : Unit)
    (h : os_remove fs p = .ok fs' v) : fsLookup fs' p = none := by
  unfold os_remove at h
  cases hc : fsLookup fs p <;> rw [hc] at h
  · cases h
  next o =>
    cases o with
    | file c m =>
      cases h
      rw [fsLookup_fsRemove]
      simp
    | dir m => cases h
    | symlink t =>
      cases h
      rw [fsLookup_fsRemove]
      simp

/-- **C4.** The archive file is deleted exactly on full success: a successful
`unzip` leaves nothing at the archive path, while an `unzip` that raises —
anywhere: parse, per-entry extraction, permission setting, the override, or
the final delete itself — leaves the archive object in place (given that no
symlink entry's link path collides with the archive path; a partial tree may
remain in the output directory, there is no rollback). -/
theorem C4 (u : Umask) (fs : FS) (entries : List ZipInfo) (zp od : Path)
    (perm : Option Nat) :
    (∀ fs', OSUtils.unzip fs u (some entries) zp od perm = .ok fs' () →
      fsLookup fs' zp = none) ∧
    (∀ fs' e, OSUtils.unzip fs u (some entries) zp od perm = .err fs' e →
      (∀ info ∈ entries, OSUtils._is_symlink info = true →
        normpath (od ++ info.filename) ≠ zp) →
      lexists fs zp = true → lexists fs' zp = true) := by
  constructor
  · intro fs' hok
    cases hL : OSUtils.unzipLoop u od perm fs entries none with
    | err fs1 e =>
      have hu : OSUtils.unzip fs u (some entries) zp od perm = .err fs1 e := by
        simp only [OSUtils.unzip, hL]
      rw [hu] at hok; cases hok
    | ok fs1 lastp =>
      cases lastp with
      | none =>
        have hu : OSUtils.unzip fs u (some entries) zp od perm = .err fs1 .unboundLocal := by
          simp only [OSUtils.unzip, hL]
        rw [hu] at hok; cases hok
      | some p =>
        cases hov : (if islink fs1 p = false
            then OSUtils._override_permissions fs1 od perm else Res.ok fs1 ()) with
        | err fs2 e =>
          have hu : OSUtils.unzip fs u (some entries) zp od perm = .err fs2 e := by
            simp only [OSUtils.unzip, hL, hov]
          rw [hu] at hok; cases hok
        | ok fs2 v =>
          have hu : OSUtils.unzip fs u (some entries) zp od perm = os_remove fs2 zp := by
            simp only [OSUtils.unzip, hL, hov]
          rw [hu] at hok
          exact os_remove_ok_none fs2 fs' zp () hok
  · intro fs' e herr hav h
    cases hL : OSUtils.unzipLoop u od perm fs entries none with
    | err fs1 e1 =>
      have hu : OSUtils.unzip fs u (some entries) zp od perm = .err fs1 e1 := by
        simp only [OSUtils.unzip, hL]
      rw [hu] at herr
      cases herr
      have h2 := unzipLoop_lex u od zp perm entries fs none hav h
      rw [hL] at h2; exact h2
    | ok fs1 lastp =>
      have h1 : lexists fs1 zp = true := by
        have h2 := unzipLoop_lex u od zp perm entries fs none hav h
        rw [hL] at h2; exact h2
      cases lastp with
      | none =>
        have hu : OSUtils.unzip fs u (some entries) zp od perm = .err fs1 .unboundLocal := by
          simp only [OSUtils.unzip, hL]
        rw [hu] at herr; cases herr; exact h1
      | some p =>
        cases hov : (if islink fs1 p = false
            then OSUtils._override_permissions fs1 od perm else Res.ok fs1 ()) with
        | err fs2 e2 =>
          have h2 : lexists fs2 zp = true := by
            by_cases hl : islink fs1 p = false
            · rw [if_pos hl] at hov
              have h3 := override_permissions_lex fs1 od zp perm h1
              rw [hov] at h3; exact h3
            · rw [if_neg hl] at hov; cases hov
          have hu : OSUtils.unzip fs u (some entries) zp od perm = .err fs2 e2 := by
            simp only [OSUtils.unzip, hL, hov]
          rw [hu] at herr; cases herr; exact h2
        | ok fs2 v =>
          have h2 : lexists fs2 zp = true := by
            by_cases hl : islink fs1 p = false
            · rw [if_pos hl] at hov
              have h3 := override_permissions_lex fs1 od zp perm h1
              rw [hov] at h3; exact h3
            · rw [if_neg hl] at hov; cases hov; exact h1
          have hu : OSUtils.unzip fs u (some entries) zp od perm = os_remove fs2 zp := by
            simp only [OSUtils.unzip, hL, hov]
          rw [hu] at herr
          unfold os_remove at herr
          cases hc : fsLookup fs2 zp <;> rw [hc] at herr
          · cases herr; exact h2
          next o =>
            cases o with
            | file c m => cases herr
            | dir m => cases herr; exact h2
            | symlink t => cases herr

/-- Witness for `C4`: a successful run deletes `a.zip`; the failed run over a
stale directory leaves `a.zip` in place. -/
theorem C4_witness :
    fsLookup (OSUtils.unzip exFS exUmask (some [exFileEntry]) ["a.zip"] ["out"] none).fs
      ["a.zip"] = none ∧
    lexists (OSUtils.unzip exFSStaleDir exUmask (some [exLinkEntry]) ["a.zip"] ["out"]
      (some 493)).fs ["a.zip"] = true :=
  ⟨(C4 exUmask exFS [exFileEntry] ["a.zip"] ["out"] none).1
      [(["out", "f.txt"], .file "hi" 420), (["out"], .dir 448)] (by decide),
   (C4 exUmask exFSStaleDir [exLinkEntry] ["a.zip"] ["out"] (some 493)).2
      exFSStaleDir PyErr.fsError (by decide) (by decide) (by decide)⟩

/-! Precise-effect lemmas used for the override-mode invariant. -/

theorem lexists_of_resolve (fs : FS) (n : Nat) (t r : Path)
    (h : resolveLink fs (n + 1) t = some r) : lexists fs t = true := by
  unfold resolveLink at h
  cases hc : fsLookup fs t
  · rw [hc] at h; cases h
  · simp [lexists, hc]

theorem resolveLink_self_or_symlink (fs : FS) (n : Nat) (t r : Path)
    (h : resolveLink fs n t = some r) :
    r = t ∨ ∃ tl, fsLookup fs t = some (.symlink tl) := by
  cases n with
  | zero => cases h
  | succ n0 =>
    unfold resolveLink at h
    cases hc : fsLookup fs t <;> rw [hc] at h
    · cases h
    next o =>
      cases o with
      | file c m => left; cases h; rfl
      | dir m => left; cases h; rfl
      | symlink tl => right; exact ⟨tl, rfl⟩

theorem write_file_ok_spec (fs : FS) (fm : Nat) (p : Path) (c : String)
    (fs2 : FS) (v : Unit) (h : write_file fs fm p c = .ok fs2 v) :
    lexists fs2 p = true ∧
    (∀ q o, q ≠ p → fsLookup fs q = some o → fsLookup fs2 q = some o) := by
  unfold write_file at h
  cases hc : fsLookup fs p <;> rw [hc] at h
  · cases h
    refine ⟨by simp [lexists, fsLookup_fsSet_self], fun q o hq ho => ?_⟩
    rwa [fsLookup_fsSet_ne _ _ _ _ (Ne.symm hq)]
  next o0 =>
    cases o0 with
    | file c0 m0 =>
      cases h
      refine ⟨by simp [lexists, fsLookup_fsSet_self], fun q o hq ho => ?_⟩
      rwa [fsLookup_fsSet_ne _ _ _ _ (Ne.symm hq)]
    | dir m0 => cases h
    | symlink t0 => cases h

theorem os_mkdir_ok_spec (d : Nat) (fs : FS) (p : Path) (fs2 : FS) (v : Unit)
    (h : os_mkdir fs d p = .ok fs2 v) : fs2 = fsSet fs p (.dir d) := by
  unfold os_mkdir at h
  by_cases hl : lexists fs p = true
  · rw [if_pos hl] at h; cases h
  · rw [if_neg hl] at h; cases h; rfl

theorem os_symlink_ok_spec (fs : FS) (src : String) (p : Path) (fs2 : FS) (v : Unit)
    (h : os_symlink fs src p = .ok fs2 v) : fs2 = fsSet fs p (.symlink src) := by
  unfold os_symlink at h
  by_cases hl : lexists fs p = true
  · rw [if_pos hl] at h; cases h
  · rw [if_neg hl] at h; cases h; rfl

theorem os_remove_ok_fs (fs : FS) (p : Path) (fs2 : FS) (v : Unit)
    (h : os_remove fs p = .ok fs2 v) : fs2 = fsRemove fs p := by
  unfold os_remove at h
  cases hc : fsLookup fs p <;> rw [hc] at h
  · cases h
  next o =>
    cases o with
    | file c m => cases h; rfl
    | dir m => cases h
    | symlink t => cases h; rfl

/-- `os.chmod` on a path that is not a symlink acts exactly at that path:
everything else is untouched, and the path still holds a non-symlink object. -/
theorem os_chmod_direct (fs : FS) (e : Path) (m : Nat) (hnl : islink fs e = false)
    (fs2 : FS) (v : Unit) (h : os_chmod fs e m = .ok fs2 v) :
    (∀ q, q ≠ e → fsLookup fs2 q = fsLookup fs q) ∧
    lexists fs2 e = true ∧ islink fs2 e = false := by
  cases hc : fsLookup fs e with
  | none =>
    have he : os_chmod fs e m = .err fs .fsError := by
      unfold os_chmod
      rw [resolveLink_none fs e hc (fs.length + 1)]
    rw [he] at h; cases h
  | some o =>
    cases o with
    | file c0 m0 =>
      have he : os_chmod fs e m = .ok (fsSet fs e (.file c0 m)) () := by
        unfold os_chmod
        rw [resolveLink_of_file fs fs.length e c0 m0 hc]
        simp [hc]
      rw [he] at h
      cases h
      refine ⟨fun q hq => fsLookup_fsSet_ne _ _ _ _ (Ne.symm hq), ?_, ?_⟩
      · simp [lexists, fsLookup_fsSet_self]
      · simp [islink, fsLookup_fsSet_self]
    | dir m0 =>
      have he : os_chmod fs e m = .ok (fsSet fs e (.dir m)) () := by
        unfold os_chmod
        rw [resolveLink_of_dir fs fs.length e m0 hc]
        simp [hc]
      rw [he] at h
      cases h
      refine ⟨fun q hq => fsLookup_fsSet_ne _ _ _ _ (Ne.symm hq), ?_, ?_⟩
      · simp [lexists, fsLookup_fsSet_self]
      · simp [islink, fsLookup_fsSet_self]
    | symlink t => simp [islink, hc] at hnl

/-- A chmod to mode `p` anywhere preserves "every file or directory here has
mode `p`". -/
theorem os_chmod_p_modeIs (fs : FS) (t : Path) (p : Nat) (q : Path)
    (h : modeIsB (fsLookup fs q) p = true) :
    modeIsB (fsLookup (os_chmod fs t p).fs q) p = true := by
  cases hres : resolveLink fs (fs.length + 1) t with
  | none =>
    have he : os_chmod fs t p = .err fs .fsError := by unfold os_chmod; rw [hres]
    rw [he]; exact h
  | some r =>
    cases hlook : fsLookup fs r with
    | none =>
      have he : os_chmod fs t p = .err fs .fsError := by
        unfold os_chmod; rw [hres]; simp [hlook]
      rw [he]; exact h
    | some o =>
      cases o with
      | file c m0 =>
        have he : os_chmod fs t p = .ok (fsSet fs r (.file c p)) () := by
          unfold os_chmod; rw [hres]; simp [hlook]
        rw [he]
        show modeIsB (fsLookup (fsSet fs r (.file c p)) q) p = true
        rw [fsLookup_fsSet]
        by_cases hrq : r = q
        · rw [if_pos hrq]; simp [modeIsB]
        · rw [if_neg hrq]; exact h
      | dir m0 =>
        have he : os_chmod fs t p = .ok (fsSet fs r (.dir p)) () := by
          unfold os_chmod; rw [hres]; simp [hlook]
        rw [he]
        show modeIsB (fsLookup (fsSet fs r (.dir p)) q) p = true
        rw [fsLookup_fsSet]
        by_cases hrq : r = q
        · rw [if_pos hrq]; simp [modeIsB]
        · rw [if_neg hrq]; exact h
      | symlink t0 =>
        have he : os_chmod fs t p = .err fs .fsError := by
          unfold os_chmod; rw [hres]; simp [hlook]
        rw [he]; exact h

/-- After a successful `os.chmod t p`, the object at `t` (if a file or a
directory) carries mode `p`. -/
theorem os_chmod_ok_target (fs : FS) (t : Path) (p : Nat) (fs2 : FS) (v : Unit)
    (h : os_chmod fs t p = .ok fs2 v) : modeIsB (fsLookup fs2 t) p = true := by
  cases hres : resolveLink fs (fs.length + 1) t with
  | none =>
    have he : os_chmod fs t p = .err fs .fsError := by unfold os_chmod; rw [hres]
    rw [he] at h; cases h
  | some r =>
    cases hlook : fsLookup fs r with
    | none =>
      have he : os_chmod fs t p = .err fs .fsError := by
        unfold os_chmod; rw [hres]; simp [hlook]
      rw [he] at h; cases h
    | some o =>
      cases o with
      | file c m0 =>
        have he : os_chmod fs t p = .ok (fsSet fs r (.file c p)) () := by
          unfold os_chmod; rw [hres]; simp [hlook]
        rw [he] at h; cases h
        rcases resolveLink_self_or_symlink fs _ t r hres with hrt | ⟨tl, htl⟩
        · subst hrt; rw [fsLookup_fsSet_self]; simp [modeIsB]
        · have hrne : r ≠ t := by
            intro e2; rw [e2, htl] at hlook; cases hlook
          rw [fsLookup_fsSet_ne _ _ _ _ hrne, htl]; rfl
      | dir m0 =>
        have he : os_chmod fs t p = .ok (fsSet fs r (.dir p)) () := by
          unfold os_chmod; rw [hres]; simp [hlook]
        rw [he] at h; cases h
        rcases resolveLink_self_or_symlink fs _ t r hres with hrt | ⟨tl, htl⟩
        · subst hrt; rw [fsLookup_fsSet_self]; simp [modeIsB]
        · have hrne : r ≠ t := by
            intro e2; rw [e2, htl] at hlook; cases hlook
          rw [fsLookup_fsSet_ne _ _ _ _ hrne, htl]; rfl
      | symlink t0 =>
        have he : os_chmod fs t p = .err fs .fsError := by
          unfold os_chmod; rw [hres]; simp [hlook]
        rw [he] at h; cases h

/-- `os.remove` preserves "every file or directory here has mode `p`". -/
theorem os_remove_modeIs (fs : FS) (t : Path) (p : Nat) (q : Path)
    (h : modeIsB (fsLookup fs q) p = true) :
    modeIsB (fsLookup (os_remove fs t).fs q) p = true := by
  cases hc : fsLookup fs t with
  | none =>
    have he : os_remove fs t = .err fs .fsError := by unfold os_remove; rw [hc]
    rw [he]; exact h
  | some o =>
    cases o with
    | file c m =>
      have he : os_remove fs t = .ok (fsRemove fs t) () := by unfold os_remove; rw [hc]
      rw [he]
      show modeIsB (fsLookup (fsRemove fs t) q) p = true
      rw [fsLookup_fsRemove]
      by_cases hq : q = t
      · rw [if_pos hq]; rfl
      · rw [if_neg hq]; exact h
    | dir m =>
      have he : os_remove fs t = .err fs .fsError := by unfold os_remove; rw [hc]
      rw [he]; exact h
    | symlink t0 =>
      have he : os_remove fs t = .ok (fsRemove fs t) () := by unfold os_remove; rw [hc]
      rw [he]
      show modeIsB (fsLookup (fsRemove fs t) q) p = true
      rw [fsLookup_fsRemove]
      by_cases hq : q = t
      · rw [if_pos hq]; rfl
      · rw [if_neg hq]; exact h

/-- Specification of a successful `zip_ref.extract`: the returned path is the
sanitized normalized join, it exists afterwards, and every object elsewhere is
untouched. -/
theorem zip_extract_ok_spec (fs : FS) (u : Umask) (info : ZipInfo) (od : Path)
    (fs1 : FS) (e : Path) (h : zip_extract fs u info od = .ok fs1 e) :
    e = normpath (od ++ sanitizeArcname info.filename) ∧ lexists fs1 e = true ∧
    (∀ q o, q ≠ e → fsLookup fs q = some o → fsLookup fs1 q = some o) := by
  cases hmk : (if (normpath (od ++ sanitizeArcname info.filename)).dropLast ≠ [] ∧
      path_exists fs ((normpath (od ++ sanitizeArcname info.filename)).dropLast) = false
    then makedirs fs u.dirMode ((normpath (od ++ sanitizeArcname info.filename)).dropLast)
    else Res.ok fs ()) with
  | err fs0 e0 =>
    have he : zip_extract fs u info od = .err fs0 e0 := by
      simp only [zip_extract]; rw [hmk]
    rw [he] at h; cases h
  | ok fs0 v =>
    have hpres0 : ∀ q o, fsLookup fs q = some o → fsLookup fs0 q = some o := by
      intro q o ho
      by_cases hc : (normpath (od ++ sanitizeArcname info.filename)).dropLast ≠ [] ∧
          path_exists fs ((normpath (od ++ sanitizeArcname info.filename)).dropLast) = false
      · rw [if_pos hc] at hmk
        have h2 := makedirs_mono u.dirMode fs
          ((normpath (od ++ sanitizeArcname info.filename)).dropLast) q o ho
        rw [hmk] at h2; exact h2
      · rw [if_neg hc] at hmk; cases hmk; exact ho
    cases hd : info.isDirEntry with
    | true =>
      cases hid : isdir fs0 (normpath (od ++ sanitizeArcname info.filename)) with
      | true =>
        have he : zip_extract fs u info od =
            .ok fs0 (normpath (od ++ sanitizeArcname info.filename)) := by
          simp only [zip_extract]; rw [hmk]; simp [hd, hid]
        rw [he] at h
        injection h with hf he2
        subst hf
        subst he2
        refine ⟨rfl, ?_, fun q o hq ho => hpres0 q o ho⟩
        unfold isdir at hid
        cases hres2 : resolveLink fs0 (fs0.length + 1)
            (normpath (od ++ sanitizeArcname info.filename)) with
        | none => rw [hres2] at hid; cases hid
        | some r => exact lexists_of_resolve fs0 fs0.length _ r hres2
      | false =>
        cases hmk2 : os_mkdir fs0 u.dirMode
            (normpath (od ++ sanitizeArcname info.filename)) with
        | err fs2 e2 =>
          have he : zip_extract fs u info od = .err fs2 e2 := by
            simp only [zip_extract]; rw [hmk]; simp [hd, hid, hmk2]
          rw [he] at h; cases h
        | ok fs2 v2 =>
          have he : zip_extract fs u info od =
              .ok fs2 (normpath (od ++ sanitizeArcname info.filename)) := by
            simp only [zip_extract]; rw [hmk]; simp [hd, hid, hmk2]
          rw [he] at h
          injection h with hf he2
          subst hf
          subst he2
          have hset := os_mkdir_ok_spec u.dirMode fs0 _ fs2 v2 hmk2
          subst hset
          refine ⟨rfl, by simp [lexists, fsLookup_fsSet_self], fun q o hq ho => ?_⟩
          rw [fsLookup_fsSet_ne _ _ _ _ (Ne.symm hq)]
          exact hpres0 q o ho
    | false =>
      cases hwf : write_file fs0 u.fileMode (normpath (od ++ sanitizeArcname info.filename))
          info.content with
      | err fs2 e2 =>
        have he : zip_extract fs u info od = .err fs2 e2 := by
          simp only [zip_extract]; rw [hmk]; simp [hd, hwf]
        rw [he] at h; cases h
      | ok fs2 v2 =>
        have he : zip_extract fs u info od =
            .ok fs2 (normpath (od ++ sanitizeArcname info.filename)) := by
          simp only [zip_extract]; rw [hmk]; simp [hd, hwf]
        rw [he] at h
        injection h with hf he2
        subst hf
        subst he2
        obtain ⟨hlex2, hpres2⟩ := write_file_ok_spec fs0 u.fileMode _ info.content fs2 v2 hwf
        exact ⟨rfl, hlex2, fun q o hq ho => hpres2 q o hq (hpres0 q o ho)⟩

/-- Specification of a successful `_extract`: the returned path is
`entryPath`, something is at it afterwards, and every object elsewhere is
untouched. -/
theorem extract_ok_spec (fs : FS) (u : Umask) (info : ZipInfo) (od : Path)
    (fs1 : FS) (e : Path) (h : OSUtils._extract fs u info od = .ok fs1 e) :
    e = OSUtils.entryPath od info ∧ lexists fs1 e = true ∧
    (∀ q o, q ≠ e → fsLookup fs q = some o → fsLookup fs1 q = some o) := by
  cases hsym : OSUtils._is_symlink info with
  | false =>
    have hep : OSUtils.entryPath od info = normpath (od ++ sanitizeArcname info.filename) := by
      unfold OSUtils.entryPath
      rw [if_neg (by simp [hsym])]
    have he : OSUtils._extract fs u info od = zip_extract fs u info od := by
      unfold OSUtils._extract; rw [if_pos hsym]
    rw [he] at h
    obtain ⟨h1, h2, h3⟩ := zip_extract_ok_spec fs u info od fs1 e h
    exact ⟨by rw [hep]; exact h1, h2, h3⟩
  | true =>
    have hep : OSUtils.entryPath od info = normpath (od ++ info.filename) := by
      unfold OSUtils.entryPath
      rw [if_pos hsym]
    have hunf := extract_symlink_unfold fs u info od hsym
    cases hmk : (if path_exists fs (normpath (od ++ info.filename)).dropLast = false
        then makedirs fs u.dirMode (normpath (od ++ info.filename)).dropLast
        else Res.ok fs ()) with
    | err fs0 e0 =>
      have he : OSUtils._extract fs u info od = .err fs0 e0 := by
        rw [hunf]; simp only [hmk]
      rw [he] at h; cases h
    | ok fs0 v =>
      have hpres0 : ∀ q o, fsLookup fs q = some o → fsLookup fs0 q = some o := by
        intro q o ho
        by_cases hc : path_exists fs (normpath (od ++ info.filename)).dropLast = false
        · rw [if_pos hc] at hmk
          have h2 := makedirs_mono u.dirMode fs
            ((normpath (od ++ info.filename)).dropLast) q o ho
          rw [hmk] at h2; exact h2
        · rw [if_neg hc] at hmk; cases hmk; exact ho
      cases hrm : (if lexists fs0 (normpath (od ++ info.filename))
          then os_remove fs0 (normpath (od ++ info.filename)) else Res.ok fs0 ()) with
      | err fs2 e2 =>
        have he : OSUtils._extract fs u info od = .err fs2 e2 := by
          rw [hunf]; simp only [hmk, hrm]
        rw [he] at h; cases h
      | ok fs2 v2 =>
        have hpres2 : ∀ q o, q ≠ normpath (od ++ info.filename) →
            fsLookup fs0 q = some o → fsLookup fs2 q = some o := by
          intro q o hq ho
          by_cases hl : lexists fs0 (normpath (od ++ info.filename)) = true
          · rw [if_pos hl] at hrm
            have hfs2 := os_remove_ok_fs fs0 _ fs2 v2 hrm
            subst hfs2
            rwa [fsLookup_fsRemove, if_neg hq]
          · rw [if_neg hl] at hrm; cases hrm; exact ho
        cases hsl : os_symlink fs2 info.content (normpath (od ++ info.filename)) with
        | err fs3 e3 =>
          have he : OSUtils._extract fs u info od = .err fs3 e3 := by
            rw [hunf]; simp only [hmk, hrm, hsl]
          rw [he] at h; cases h
        | ok fs3 v3 =>
          have he : OSUtils._extract fs u info od =
              .ok fs3 (normpath (od ++ info.filename)) := by
            rw [hunf]; simp only [hmk, hrm, hsl]
          rw [he] at h
          injection h with hf he2
          subst hf
          subst he2
          have hfs3 := os_symlink_ok_spec fs2 info.content _ fs3 v3 hsl
          subst hfs3
          refine ⟨hep.symm, by simp [lexists, fsLookup_fsSet_self], fun q o hq ho => ?_⟩
          rw [fsLookup_fsSet_ne _ _ _ _ (Ne.symm hq)]
          exact hpres2 q o hq (hpres0 q o ho)

/-- Through a successful run of the loop with a nonzero override `p`: (i)
every path that already holds an object whose file/directory mode is `p`
still holds an object whose file/directory mode is `p` (symlinks count as
trivially fine); (ii) every processed entry's target path ends in that
state too. -/
theorem unzipLoop_modeInv (u : Umask) (od : Path) (p : Nat) (hp : p ≠ 0) :
    ∀ (entries : List ZipInfo) (fs : FS) (last : Option Path) (fsL : FS)
      (lastL : Option Path),
      OSUtils.unzipLoop u od (some p) fs entries last = .ok fsL lastL →
      ((∀ q, lexists fs q = true → modeIsB (fsLookup fs q) p = true →
        lexists fsL q = true ∧ modeIsB (fsLookup fsL q) p = true) ∧
       (∀ info ∈ entries, lexists fsL (OSUtils.entryPath od info) = true ∧
        modeIsB (fsLookup fsL (OSUtils.entryPath od info)) p = true)) := by
  intro entries
  induction entries with
  | nil =>
    intro fs last fsL lastL h
    injection h with hf hl2
    subst hf
    exact ⟨fun q hq hm => ⟨hq, hm⟩, by intro i hi; cases hi⟩
  | cons info rest ih =>
    intro fs last fsL lastL h
    cases hE : OSUtils._extract fs u info od with
    | err fs1 e1 =>
      have he : OSUtils.unzipLoop u od (some p) fs (info :: rest) last = .err fs1 e1 := by
        simp only [OSUtils.unzipLoop, hE]
      rw [he] at h; cases h
    | ok fs1 e =>
      obtain ⟨hep, hlex1, hpres1⟩ := extract_ok_spec fs u info od fs1 e hE
      by_cases hl : islink fs1 e = false
      · cases hS : OSUtils._set_permissions fs1 info e with
        | err fs2 e2 =>
          have he : OSUtils.unzipLoop u od (some p) fs (info :: rest) last = .err fs2 e2 := by
            simp only [OSUtils.unzipLoop, hE]
            rw [if_pos hl]
            simp only [hS]
          rw [he] at h; cases h
        | ok fs2 v =>
          have hS_eff : (∀ q, q ≠ e → fsLookup fs2 q = fsLookup fs1 q) ∧
              lexists fs2 e = true ∧ islink fs2 e = false := by
            by_cases h0 : info.external_attr >>> 16 = 0
            · have heS : OSUtils._set_permissions fs1 info e = .ok fs1 () := by
                unfold OSUtils._set_permissions
                rw [if_pos h0]
              rw [heS] at hS
              injection hS with hf hv
              subst hf
              exact ⟨fun q _ => rfl, hlex1, hl⟩
            · have heS : OSUtils._set_permissions fs1 info e =
                  os_chmod fs1 e (info.external_attr >>> 16) := by
                unfold OSUtils._set_permissions
                rw [if_neg h0]
              rw [heS] at hS
              exact os_chmod_direct fs1 e _ hl fs2 v hS
          obtain ⟨hS_pres, hS_lex, hS_islink⟩ := hS_eff
          cases hO : OSUtils._override_permissions fs2 e (some p) with
          | err fs3 e3 =>
            have he : OSUtils.unzipLoop u od (some p) fs (info :: rest) last =
                .err fs3 e3 := by
              simp only [OSUtils.unzipLoop, hE]
              rw [if_pos hl]
              simp only [hS, hO]
            rw [he] at h; cases h
          | ok fs3 v2 =>
            have hov : OSUtils._override_permissions fs2 e (some p) = os_chmod fs2 e p := by
              have h0 : OSUtils._override_permissions fs2 e (some p) =
                  if p ≠ 0 then os_chmod fs2 e p else Res.ok fs2 () := rfl
              rw [h0, if_pos hp]
            have hO2 := hO
            rw [hov] at hO2
            obtain ⟨hO_pres, hO_lex, hO_islink⟩ := os_chmod_direct fs2 e p hS_islink fs3 v2 hO2
            have hO_target := os_chmod_ok_target fs2 e p fs3 v2 hO2
            have he : OSUtils.unzipLoop u od (some p) fs (info :: rest) last =
                OSUtils.unzipLoop u od (some p) fs3 rest (some e) := by
              simp only [OSUtils.unzipLoop, hE]
              rw [if_pos hl]
              simp only [hS, hO]
            rw [he] at h
            obtain ⟨ih_pres, ih_estab⟩ := ih fs3 (some e) fsL lastL h
            constructor
            · intro q hq hm
              by_cases hqe : q = e
              · subst hqe
                exact ih_pres q hO_lex hO_target
              · obtain ⟨o, ho⟩ := (lexists_iff fs q).mp hq
                have h1 : fsLookup fs1 q = some o := hpres1 q o hqe ho
                have h2 : fsLookup fs2 q = some o := by rw [hS_pres q hqe]; exact h1
                have h3 : fsLookup fs3 q = some o := by rw [hO_pres q hqe]; exact h2
                apply ih_pres q ((lexists_iff fs3 q).mpr ⟨o, h3⟩)
                rw [ho] at hm
                rw [h3]
                exact hm
            · intro i hi
              rcases List.mem_cons.mp hi with heq | hmem
              · subst heq
                rw [← hep]
                exact ih_pres e hO_lex hO_target
              · exact ih_estab i hmem
      · have he : OSUtils.unzipLoop u od (some p) fs (info :: rest) last =
            OSUtils.unzipLoop u od (some p) fs1 rest (some e) := by
          simp only [OSUtils.unzipLoop, hE]
          rw [if_neg hl]
        rw [he] at h
        obtain ⟨ih_pres, ih_estab⟩ := ih fs1 (some e) fsL lastL h
        have hmode_e : modeIsB (fsLookup fs1 e) p = true := by
          have hl2 : islink fs1 e = true := by
            revert hl
            cases islink fs1 e <;> simp
          unfold islink at hl2
          cases hc : fsLookup fs1 e <;> rw [hc] at hl2
          · cases hl2
          next o =>
            cases o with
            | file c m => cases hl2
            | dir m => cases hl2
            | symlink t => rfl
        constructor
        · intro q hq hm
          by_cases hqe : q = e
          · subst hqe
            exact ih_pres q hlex1 hmode_e
          · obtain ⟨o, ho⟩ := (lexists_iff fs q).mp hq
            have h1 : fsLookup fs1 q = some o := hpres1 q o hqe ho
            apply ih_pres q ((lexists_iff fs1 q).mpr ⟨o, h1⟩)
            rw [ho] at hm
            rw [h1]
            exact hm
        · intro i hi
          rcases List.mem_cons.mp hi with heq | hmem
          · subst heq
            rw [← hep]
            exact ih_pres e hlex1 hmode_e
          · exact ih_estab i hmem

/-- **C2 (amended).** When a nonzero override permission is supplied and
`unzip` succeeds: every entry's extraction target path that still holds a
regular file or directory holds it with exactly the override mode (first
conjunct), and the output directory's object gets the override mode when the
last processed entry's path is not a symlink (second conjunct).  No more is
guaranteed — the original claim's "every regular file and directory in the
output, including the root" is refuted by the two runs of
`C2_counterexample`: the root keeps its old mode when the last entry is a
symlink, and an implicitly created leading directory of a nested entry keeps
the default creation mode. -/
theorem C2_amended (u : Umask) (fs : FS) (entries : List ZipInfo) (zp od : Path)
    (p : Nat) (fs' : FS) (hp : p ≠ 0)
    (h : OSUtils.unzip fs u (some entries) zp od (some p) = .ok fs' ()) :
    (∀ info ∈ entries,
      modeIsB (fsLookup fs' (OSUtils.entryPath od info)) p = true) ∧
    (∀ fsL lastp, OSUtils.unzipLoop u od (some p) fs entries none = .ok fsL (some lastp) →
      islink fsL lastp = false → modeIsB (fsLookup fs' od) p = true) := by
  cases hL : OSUtils.unzipLoop u od (some p) fs entries none with
  | err fs1 e1 =>
    have hu : OSUtils.unzip fs u (some entries) zp od (some p) = .err fs1 e1 := by
      simp only [OSUtils.unzip, hL]
    rw [hu] at h; cases h
  | ok fs1 lastopt =>
    obtain ⟨_, hestab⟩ := unzipLoop_modeInv u od p hp entries fs none fs1 lastopt hL
    cases lastopt with
    | none =>
      have hu : OSUtils.unzip fs u (some entries) zp od (some p) =
          .err fs1 .unboundLocal := by
        simp only [OSUtils.unzip, hL]
      rw [hu] at h; cases h
    | some lastp =>
      cases hov : (if islink fs1 lastp = false
          then OSUtils._override_permissions fs1 od (some p) else Res.ok fs1 ()) with
      | err fs2 e2 =>
        have hu : OSUtils.unzip fs u (some entries) zp od (some p) = .err fs2 e2 := by
          simp only [OSUtils.unzip, hL, hov]
        rw [hu] at h; cases h
      | ok fs2 v =>
        have hu : OSUtils.unzip fs u (some entries) zp od (some p) = os_remove fs2 zp := by
          simp only [OSUtils.unzip, hL, hov]
        rw [hu] at h
        have hfs' := os_remove_ok_fs fs2 zp fs' () h
        subst hfs'
        have hpres12 : ∀ q, modeIsB (fsLookup fs1 q) p = true →
            modeIsB (fsLookup fs2 q) p = true := by
          by_cases hl : islink fs1 lastp = false
          · rw [if_pos hl] at hov
            have hov2 : OSUtils._override_permissions fs1 od (some p) =
                os_chmod fs1 od p := by
              have h0 : OSUtils._override_permissions fs1 od (some p) =
                  if p ≠ 0 then os_chmod fs1 od p else Res.ok fs1 () := rfl
              rw [h0, if_pos hp]
            rw [hov2] at hov
            intro q hm
            have h2 := os_chmod_p_modeIs fs1 od p q hm
            rw [hov] at h2
            exact h2
          · rw [if_neg hl] at hov
            injection hov with hf hv
            subst hf
            exact fun q hm => hm
        constructor
        · intro i hi
          have h3 := hpres12 _ (hestab i hi).2
          show modeIsB (fsLookup (fsRemove fs2 zp) (OSUtils.entryPath od i)) p = true
          rw [fsLookup_fsRemove]
          by_cases hq : OSUtils.entryPath od i = zp
          · rw [if_pos hq]; rfl
          · rw [if_neg hq]; exact h3
        · intro fsL2 lastp2 hL2 hlnk
          injection hL2 with hf hlast
          subst hf
          injection hlast with hlast2
          subst hlast2
          rw [if_pos hlnk] at hov
          have hov2 : OSUtils._override_permissions fs1 od (some p) =
              os_chmod fs1 od p := by
            have h0 : OSUtils._override_permissions fs1 od (some p) =
                if p ≠ 0 then os_chmod fs1 od p else Res.ok fs1 () := rfl
            rw [h0, if_pos hp]
          rw [hov2] at hov
          have htar := os_chmod_ok_target fs1 od p fs2 v hov
          show modeIsB (fsLookup (fsRemove fs2 zp) od) p = true
          rw [fsLookup_fsRemove]
          by_cases hq : od = zp
          · rw [if_pos hq]; rfl
          · rw [if_neg hq]; exact htar

/-- Witness for `C2_amended` on a successful run with override `0o755` and a
single regular-file entry. -/
theorem C2_amended_witness :
    (∀ info ∈ [exFileEntry],
      modeIsB (fsLookup (OSUtils.unzip exFS exUmask (some [exFileEntry]) ["a.zip"]
        ["out"] (some 493)).fs (OSUtils.entryPath ["out"] info)) 493 = true) ∧
    (∀ fsL lastp,
      OSUtils.unzipLoop exUmask ["out"] (some 493) exFS [exFileEntry] none =
        .ok fsL (some lastp) →
      islink fsL lastp = false →
      modeIsB (fsLookup (OSUtils.unzip exFS exUmask (some [exFileEntry]) ["a.zip"]
        ["out"] (some 493)).fs ["out"]) 493 = true) :=
  C2_amended exUmask exFS [exFileEntry] ["a.zip"] ["out"] 493
    (OSUtils.unzip exFS exUmask (some [exFileEntry]) ["a.zip"] ["out"] (some 493)).fs
    (by decide) (by decide)

end AwsLB
